/-
  A verification development for the document-mutation pipeline of the
  `nodejs-firestore` client core (`write-batch.ts`, `validate.ts`, and the
  two auxiliary validation/utility files).

  The TypeScript source is shallowly embedded: pure functions become Lean
  functions, JavaScript exceptions become `Except`, the mutable `WriteBatch`
  becomes explicit state passing, and JavaScript numbers are modelled by a
  tagged type distinguishing NaN, the infinities, and finite (rational)
  values.  Components of the repository that are referenced from the
  embedded files but whose sources are not part of this snapshot
  (`path.ts`, `document.ts`, `serializer.ts`, `reference.ts`) are modelled
  from the specification; each such definition carries a doc comment
  starting with `Modelled from the spec:`.
-/
import Mathlib

namespace Firestore

/-! ## FieldPath

`Modelled from the spec:` the source file `path.ts` is not part of this
snapshot.  The spec states: a `FieldPath` is an ordered sequence of
non-empty string segments; two paths are equal iff the segment sequences
are equal; the total order is lexicographic over segments; `isPrefixOf`
holds iff one path's segments are a (strict or non-strict) leading
subsequence of the other's. -/

/-- A field path is its list of segments. -/
abbrev FieldPath := List String

/-- Three-way comparison in a linear order. -/
def cmp3 {α : Type} [LinearOrder α] (a b : α) : Ordering :=
  if a < b then Ordering.lt else if a = b then Ordering.eq else Ordering.gt

/-- Lexicographic three-way comparison of two character lists. -/
def cmpCharList : List Char → List Char → Ordering
  | [], [] => Ordering.eq
  | [], _ :: _ => Ordering.lt
  | _ :: _, [] => Ordering.gt
  | a :: as, b :: bs =>
    match cmp3 a b with
    | Ordering.eq => cmpCharList as bs
    | o => o

/-- Three-way comparison of two segments, modelling the JavaScript
`<` comparison used to order path segments (compared code point by
code point, agreeing with the string order). -/
def cmpStr (a b : String) : Ordering := cmpCharList a.data b.data

/-- `Modelled from the spec:` `FieldPath.compareTo` — the total order on
field paths, lexicographic over segments (a shorter path precedes any
extension of itself). -/
def compareTo : FieldPath → FieldPath → Ordering
  | [], [] => Ordering.eq
  | [], _ :: _ => Ordering.lt
  | _ :: _, [] => Ordering.gt
  | a :: as, b :: bs =>
    match cmpStr a b with
    | Ordering.eq => compareTo as bs
    | o => o

/-- `Modelled from the spec:` `FieldPath.isPrefixOf` — `p` is a prefix of
`q` iff `q`'s segments start with all of `p`'s segments (reflexive). -/
def fpIsPrefixOf : FieldPath → FieldPath → Bool
  | [], _ => true
  | _ :: _, [] => false
  | a :: as, b :: bs => a == b && fpIsPrefixOf as bs

/-- The boolean "less or equal" induced by the comparator, used as the
sort order (`fields.sort((l, r) => l.compareTo(r))`). -/
def fpLe (p q : FieldPath) : Bool := compareTo p q ≠ Ordering.gt

/-! ### Order facts about `compareTo` -/

theorem cmp3_eq_iff {α : Type} [LinearOrder α] {a b : α} :
    cmp3 a b = Ordering.eq ↔ a = b := by
  unfold cmp3
  split
  · rename_i h
    simp only [reduceCtorEq, false_iff]
    exact fun hab => absurd (hab ▸ h) (lt_irrefl b)
  · split <;> simp_all

theorem cmp3_lt_iff {α : Type} [LinearOrder α] {a b : α} :
    cmp3 a b = Ordering.lt ↔ a < b := by
  unfold cmp3
  split
  · simp_all
  · split <;> simp_all

theorem cmp3_gt_iff {α : Type} [LinearOrder α] {a b : α} :
    cmp3 a b = Ordering.gt ↔ b < a := by
  unfold cmp3
  split
  · rename_i h
    simp only [reduceCtorEq, false_iff, not_lt]
    exact le_of_lt h
  · split
    · rename_i h he
      simp only [reduceCtorEq, false_iff, not_lt]
      exact le_of_eq he
    · rename_i h he
      simp only [true_iff]
      rcases lt_trichotomy a b with h1 | h1 | h1
      · exact absurd h1 h
      · exact absurd h1 he
      · exact h1

theorem cmpCharList_eq_iff : ∀ {l₁ l₂ : List Char},
    cmpCharList l₁ l₂ = Ordering.eq ↔ l₁ = l₂ := by
  intro l₁
  induction l₁ with
  | nil => intro l₂; cases l₂ <;> simp [cmpCharList]
  | cons a as ih =>
    intro l₂
    cases l₂ with
    | nil => simp [cmpCharList]
    | cons b bs =>
      simp only [cmpCharList]
      rcases ho : cmp3 a b with h1 | h1 | h1
      · simp only [List.cons.injEq, reduceCtorEq, false_iff, not_and]
        intro hab
        rw [cmp3_lt_iff, hab] at ho
        exact absurd ho (lt_irrefl b)
      · have hab : a = b := cmp3_eq_iff.mp ho
        simp [hab, ih]
      · simp only [List.cons.injEq, reduceCtorEq, false_iff, not_and]
        intro hab
        rw [cmp3_gt_iff, hab] at ho
        exact absurd ho (lt_irrefl b)

theorem cmpCharList_lt_iff : ∀ {l₁ l₂ : List Char},
    cmpCharList l₁ l₂ = Ordering.lt ↔ List.Lex (· < ·) l₁ l₂ := by
  intro l₁
  induction l₁ with
  | nil =>
    intro l₂
    cases l₂ with
    | nil =>
      simp only [cmpCharList, reduceCtorEq, false_iff]
      intro h; cases h
    | cons b bs =>
      simp only [cmpCharList, true_iff]
      exact List.Lex.nil
  | cons a as ih =>
    intro l₂
    cases l₂ with
    | nil =>
      simp only [cmpCharList, reduceCtorEq, false_iff]
      intro h; cases h
    | cons b bs =>
      simp only [cmpCharList]
      rcases ho : cmp3 a b with h1 | h1 | h1
      · simp only [true_iff]
        exact List.Lex.rel (cmp3_lt_iff.mp ho)
      · have hab : a = b := cmp3_eq_iff.mp ho
        subst hab
        constructor
        · intro h; exact List.Lex.cons (ih.mp h)
        · intro h
          cases h with
          | cons h2 => exact ih.mpr h2
          | rel h2 => exact absurd h2 (lt_irrefl a)
      · simp only [reduceCtorEq, false_iff]
        intro h
        have hba : b < a := cmp3_gt_iff.mp ho
        cases h with
        | cons h2 => exact absurd hba (lt_irrefl a)
        | rel h2 => exact absurd hba (not_lt_of_lt h2)

theorem cmpCharList_gt_iff_lt : ∀ {l₁ l₂ : List Char},
    cmpCharList l₁ l₂ = Ordering.gt ↔ cmpCharList l₂ l₁ = Ordering.lt := by
  intro l₁
  induction l₁ with
  | nil => intro l₂; cases l₂ <;> simp [cmpCharList]
  | cons a as ih =>
    intro l₂
    cases l₂ with
    | nil => simp [cmpCharList]
    | cons b bs =>
      simp only [cmpCharList]
      rcases ho : cmp3 a b with h1 | h1 | h1
      · have : cmp3 b a = Ordering.gt := cmp3_gt_iff.mpr (cmp3_lt_iff.mp ho)
        simp [this]
      · have hab : a = b := cmp3_eq_iff.mp ho
        have : cmp3 b a = Ordering.eq := cmp3_eq_iff.mpr hab.symm
        simp [this, ih]
      · have : cmp3 b a = Ordering.lt := cmp3_lt_iff.mpr (cmp3_gt_iff.mp ho)
        simp [this]

theorem cmpStr_eq_iff {a b : String} : cmpStr a b = Ordering.eq ↔ a = b :=
  cmpCharList_eq_iff.trans String.toList_inj

theorem cmpStr_lt_iff {a b : String} : cmpStr a b = Ordering.lt ↔ a < b := by
  rw [String.lt_iff_toList_lt]
  exact cmpCharList_lt_iff

theorem cmpStr_gt_iff {a b : String} : cmpStr a b = Ordering.gt ↔ b < a := by
  unfold cmpStr
  rw [cmpCharList_gt_iff_lt, String.lt_iff_toList_lt]
  exact cmpCharList_lt_iff

theorem compareTo_eq_iff : ∀ {p q : FieldPath}, compareTo p q = Ordering.eq ↔ p = q := by
  intro p
  induction p with
  | nil => intro q; cases q <;> simp [compareTo]
  | cons a as ih =>
    intro q
    cases q with
    | nil => simp [compareTo]
    | cons b bs =>
      simp only [compareTo]
      rcases ho : cmpStr a b with hlt | heq | hgt
      · simp only [List.cons.injEq, reduceCtorEq, false_iff, not_and]
        intro hab
        rw [cmpStr_lt_iff, hab] at ho
        exact absurd ho (lt_irrefl b)
      · have hab : a = b := cmpStr_eq_iff.mp ho
        simp [hab, ih]
      · simp only [List.cons.injEq, reduceCtorEq, false_iff, not_and]
        intro hab
        rw [cmpStr_gt_iff, hab] at ho
        exact absurd ho (lt_irrefl b)

theorem compareTo_gt_iff_lt : ∀ {p q : FieldPath},
    compareTo p q = Ordering.gt ↔ compareTo q p = Ordering.lt := by
  intro p
  induction p with
  | nil => intro q; cases q <;> simp [compareTo]
  | cons a as ih =>
    intro q
    cases q with
    | nil => simp [compareTo]
    | cons b bs =>
      simp only [compareTo]
      rcases ho : cmpStr a b with hlt | heq | hgt
      · have : cmpStr b a = Ordering.gt := cmpStr_gt_iff.mpr (cmpStr_lt_iff.mp ho)
        simp [this]
      · have hab : a = b := cmpStr_eq_iff.mp ho
        have : cmpStr b a = Ordering.eq := cmpStr_eq_iff.mpr hab.symm
        simp [this, ih]
      · have : cmpStr b a = Ordering.lt := cmpStr_lt_iff.mpr (cmpStr_gt_iff.mp ho)
        simp [this]

theorem fpLe_total (p q : FieldPath) : fpLe p q || fpLe q p := by
  unfold fpLe
  rcases h : compareTo p q with hlt | heq | hgt
  · simp
  · simp
  · have : compareTo q p = Ordering.lt := compareTo_gt_iff_lt.mp h
    simp [this]

theorem compareTo_lt_trans : ∀ {p q r : FieldPath},
    compareTo p q = Ordering.lt → compareTo q r = Ordering.lt →
    compareTo p r = Ordering.lt := by
  intro p
  induction p with
  | nil =>
    intro q r hpq hqr
    cases r with
    | nil =>
      cases q with
      | nil => exact hpq
      | cons b bs => simp [compareTo] at hqr
    | cons c cs => simp [compareTo]
  | cons a as ih =>
    intro q r hpq hqr
    cases q with
    | nil => simp [compareTo] at hpq
    | cons b bs =>
      cases r with
      | nil => simp [compareTo] at hqr
      | cons c cs =>
        simp only [compareTo] at hpq hqr ⊢
        rcases hab : cmpStr a b with h1 | h1 | h1 <;> rw [hab] at hpq
        · rcases hbc : cmpStr b c with h2 | h2 | h2 <;> rw [hbc] at hqr
          · have : a < c := lt_trans (cmpStr_lt_iff.mp hab) (cmpStr_lt_iff.mp hbc)
            rw [cmpStr_lt_iff.mpr this]
          · have hb : b = c := cmpStr_eq_iff.mp hbc
            rw [cmpStr_lt_iff.mpr (hb ▸ cmpStr_lt_iff.mp hab)]
          · exact absurd hqr (by simp)
        · have hab' : a = b := cmpStr_eq_iff.mp hab
          rcases hbc : cmpStr b c with h2 | h2 | h2 <;> rw [hbc] at hqr
          · rw [cmpStr_lt_iff.mpr (hab' ▸ cmpStr_lt_iff.mp hbc)]
          · have hbc' : b = c := cmpStr_eq_iff.mp hbc
            rw [cmpStr_eq_iff.mpr (hab'.trans hbc')]
            exact ih hpq hqr
          · exact absurd hqr (by simp)
        · exact absurd hpq (by simp)

theorem fpLe_trans {p q r : FieldPath} (hpq : fpLe p q) (hqr : fpLe q r) :
    fpLe p r := by
  unfold fpLe at *
  rcases h1 : compareTo p q with c1 | c1 | c1 <;> rw [h1] at hpq
  · rcases h2 : compareTo q r with c2 | c2 | c2 <;> rw [h2] at hqr
    · simp [compareTo_lt_trans h1 h2]
    · have : q = r := compareTo_eq_iff.mp h2
      simp [this ▸ h1]
    · simp at hqr
  · have : p = q := compareTo_eq_iff.mp h1
    rw [this]; exact hqr
  · simp at hpq

theorem fpLe_antisymm {p q : FieldPath} (hpq : fpLe p q) (hqp : fpLe q p) :
    p = q := by
  unfold fpLe at *
  rcases h1 : compareTo p q with c1 | c1 | c1 <;> rw [h1] at hpq
  · have : compareTo q p = Ordering.gt := by
      rw [compareTo_gt_iff_lt]; exact h1
    rw [this] at hqp; simp at hqp
  · exact compareTo_eq_iff.mp h1
  · simp at hpq

theorem fpLe_cons_iff {a b : String} {as bs : List String} :
    fpLe (a :: as) (b :: bs) ↔
      (cmpStr a b = Ordering.lt ∨ (cmpStr a b = Ordering.eq ∧ fpLe as bs)) := by
  rcases h : cmpStr a b with h1 | h1 | h1 <;>
    simp [fpLe, compareTo, h]

/-- A prefix is never greater in the sort order. -/
theorem fpLe_of_isPrefixOf : ∀ {p q : FieldPath}, fpIsPrefixOf p q → fpLe p q := by
  intro p
  induction p with
  | nil =>
    intro q _
    cases q <;> simp [fpLe, compareTo]
  | cons a as ih =>
    intro q hpre
    cases q with
    | nil => simp [fpIsPrefixOf] at hpre
    | cons b bs =>
      simp only [fpIsPrefixOf, Bool.and_eq_true, beq_iff_eq] at hpre
      obtain ⟨hab, htail⟩ := hpre
      have := ih htail
      unfold fpLe at this ⊢
      simp only [compareTo, cmpStr_eq_iff.mpr hab]
      exact this

/-- Key completeness lemma for the adjacent-pair scan: between a path and
an extension of it (in sort order) every path is itself an extension. -/
theorem isPrefixOf_of_between : ∀ {p q r : FieldPath},
    fpLe p q → fpLe q r → fpIsPrefixOf p r → fpIsPrefixOf p q := by
  intro p
  induction p with
  | nil => intro q r _ _ _; simp [fpIsPrefixOf]
  | cons a as ih =>
    intro q r hpq hqr hpre
    cases r with
    | nil => simp [fpIsPrefixOf] at hpre
    | cons c cs =>
      simp only [fpIsPrefixOf, Bool.and_eq_true, beq_iff_eq] at hpre
      obtain ⟨hac, htail⟩ := hpre
      cases q with
      | nil => simp [fpLe, compareTo] at hpq
      | cons b bs =>
        simp only [fpIsPrefixOf, Bool.and_eq_true, beq_iff_eq]
        rw [fpLe_cons_iff] at hpq hqr
        rcases hpq with hab | ⟨hab, htl⟩
        · -- a < b, but r's head is a, contradicting q ≤ r
          exfalso
          have hbc : b < c → False := by
            intro hlt
            rw [← hac] at hlt
            exact absurd (lt_trans (cmpStr_lt_iff.mp hab) hlt) (lt_irrefl a)
          rcases hqr with h2 | ⟨h2, _⟩
          · exact hbc (cmpStr_lt_iff.mp h2)
          · have hba : b = a := hac ▸ cmpStr_eq_iff.mp h2
            have h3 : a < b := cmpStr_lt_iff.mp hab
            rw [hba] at h3
            exact absurd h3 (lt_irrefl a)
        · have hab' : a = b := cmpStr_eq_iff.mp hab
          refine ⟨hab', ?_⟩
          rcases hqr with h2 | ⟨h2, htl2⟩
          · -- b < c = a = b: contradiction
            exfalso
            have : b < a := hac ▸ cmpStr_lt_iff.mp h2
            rw [hab'] at this
            exact absurd this (lt_irrefl b)
          · exact ih htl htl2 htail

/-! ## validateUpdate (`write-batch.ts`)

The input of `validateUpdate` is an update `Map` keyed by `FieldPath`
objects; since distinct `FieldPath` instances with equal segments are
distinct map keys, the key collection is modelled as a list of field
paths (in insertion order, which is irrelevant because the function
sorts them). -/

/-- The sort order as a decidable propositional relation (for the
library sort used to model `Array.prototype.sort` with this comparator). -/
def fpLeR (p q : FieldPath) : Prop := fpLe p q = true

instance : DecidableRel fpLeR := fun p q =>
  inferInstanceAs (Decidable (fpLe p q = true))

instance : IsTotal FieldPath fpLeR :=
  ⟨fun p q => by
    have h := fpLe_total p q
    rw [Bool.or_eq_true] at h
    exact h⟩

instance : IsTrans FieldPath fpLeR :=
  ⟨fun _ _ _ hpq hqr => fpLe_trans hpq hqr⟩

/-- The adjacent-pair scan of `validateUpdate`: `true` iff some earlier
path in the (sorted) list is a prefix of its immediate successor. -/
def adjacentPrefixConflict : List FieldPath → Bool
  | [] => false
  | [_] => false
  | a :: b :: rest => fpIsPrefixOf a b || adjacentPrefixConflict (b :: rest)

/-- `validateUpdate` from `write-batch.ts`: sort all target paths by the
total order and fail if any path is a prefix of its successor. -/
def validateUpdate (data : List FieldPath) : Except String Unit :=
  let fields := List.insertionSort fpLeR data
  if adjacentPrefixConflict fields then
    Except.error "Field was specified multiple times."
  else
    Except.ok ()

/-- Whether an `Except` result is an error. -/
def isError {ε α : Type} : Except ε α → Bool
  | Except.error _ => true
  | Except.ok _ => false

/-- A list of paths is prefix-free when no two entries (in either order)
stand in a prefix relationship. -/
def PrefFree (l : List FieldPath) : Prop :=
  l.Pairwise (fun a b => fpIsPrefixOf a b = false ∧ fpIsPrefixOf b a = false)

theorem fpIsPrefixOf_refl : ∀ p : FieldPath, fpIsPrefixOf p p := by
  intro p
  induction p with
  | nil => rfl
  | cons a as ih => simp [fpIsPrefixOf, ih]

theorem adjacent_false_of_pairwise :
    ∀ {l : List FieldPath},
      l.Pairwise (fun a b => fpIsPrefixOf a b = false) →
      adjacentPrefixConflict l = false := by
  intro l
  induction l with
  | nil => intro _; rfl
  | cons a rest ih =>
    intro h
    cases rest with
    | nil => rfl
    | cons b rest' =>
      rw [List.pairwise_cons] at h
      obtain ⟨hhead, htail⟩ := h
      simp only [adjacentPrefixConflict, Bool.or_eq_false_iff]
      exact ⟨hhead b (List.mem_cons_self b rest'), ih htail⟩

theorem pairwise_of_sorted_adjacent :
    ∀ {l : List FieldPath},
      l.Pairwise (fun a b => fpLe a b) →
      adjacentPrefixConflict l = false →
      l.Pairwise (fun a b => fpIsPrefixOf a b = false) := by
  intro l
  induction l with
  | nil => intro _ _; exact List.Pairwise.nil
  | cons a rest ih =>
    intro hsort hadj
    rw [List.pairwise_cons] at hsort
    obtain ⟨hle, hsort'⟩ := hsort
    cases rest with
    | nil => exact List.pairwise_singleton _ a
    | cons b rest' =>
      simp only [adjacentPrefixConflict, Bool.or_eq_false_iff] at hadj
      obtain ⟨hab, hadj'⟩ := hadj
      rw [List.pairwise_cons]
      refine ⟨?_, ih hsort' hadj'⟩
      intro x hx
      rw [List.mem_cons] at hx
      rcases hx with rfl | hx
      · exact hab
      · -- x is deeper in the tail: go through b
        by_contra hpre
        rw [Bool.not_eq_false] at hpre
        have hlab : fpLe a b := hle b (List.mem_cons_self b rest')
        have hlbx : fpLe b x := by
          rw [List.pairwise_cons] at hsort'
          exact hsort'.1 x hx
        have := isPrefixOf_of_between hlab hlbx hpre
        rw [this] at hab
        exact absurd hab (by simp)

theorem prefFree_iff_adjacent_of_sorted {l : List FieldPath}
    (hsort : l.Pairwise (fun a b => fpLe a b)) :
    PrefFree l ↔ adjacentPrefixConflict l = false := by
  constructor
  · intro h
    exact adjacent_false_of_pairwise (h.imp (fun hab => hab.1))
  · intro hadj
    have hone := pairwise_of_sorted_adjacent hsort hadj
    unfold PrefFree
    -- strengthen the one-sided pairwise using sortedness and antisymmetry
    have : ∀ {m : List FieldPath},
        m.Pairwise (fun a b => fpLe a b) →
        m.Pairwise (fun a b => fpIsPrefixOf a b = false) →
        m.Pairwise (fun a b => fpIsPrefixOf a b = false ∧ fpIsPrefixOf b a = false) := by
      intro m
      induction m with
      | nil => intro _ _; exact List.Pairwise.nil
      | cons a rest ih =>
        intro hs hp
        rw [List.pairwise_cons] at hs hp ⊢
        refine ⟨?_, ih hs.2 hp.2⟩
        intro x hx
        refine ⟨hp.1 x hx, ?_⟩
        by_contra hxa
        rw [Bool.not_eq_false] at hxa
        have h1 : fpLe x a := fpLe_of_isPrefixOf hxa
        have h2 : fpLe a x := hs.1 x hx
        have hax : a = x := fpLe_antisymm h2 h1
        have hfalse := hp.1 x hx
        rw [← hax] at hfalse
        rw [fpIsPrefixOf_refl a] at hfalse
        exact absurd hfalse (by simp)
    exact this hsort hone

/-- The symmetric no-conflict relation is invariant under permutation, so
`PrefFree` transfers between the input list and its sorted version. -/
theorem prefFree_perm {l₁ l₂ : List FieldPath} (h : l₁.Perm l₂) :
    PrefFree l₁ ↔ PrefFree l₂ :=
  List.Perm.pairwise_iff (fun hab => ⟨hab.2, hab.1⟩) h

theorem validateUpdate_ok_iff {data : List FieldPath} :
    isError (validateUpdate data) = false ↔ PrefFree data := by
  have hperm : (List.insertionSort fpLeR data).Perm data :=
    List.perm_insertionSort fpLeR data
  have hsort : (List.insertionSort fpLeR data).Pairwise (fun a b => fpLe a b) :=
    List.sorted_insertionSort fpLeR data
  have hval : validateUpdate data =
      if adjacentPrefixConflict (List.insertionSort fpLeR data) then
        Except.error "Field was specified multiple times."
      else Except.ok () := rfl
  rw [hval]
  by_cases hadj : adjacentPrefixConflict (List.insertionSort fpLeR data) = true
  · rw [if_pos hadj]
    have hnpf : ¬ PrefFree data := by
      intro hpf
      have h2 := (prefFree_iff_adjacent_of_sorted hsort).mp
        ((prefFree_perm hperm).mpr hpf)
      rw [hadj] at h2
      exact absurd h2 (by simp)
    simp [isError, hnpf]
  · rw [Bool.not_eq_true] at hadj
    rw [if_neg (by simp [hadj])]
    have hpf : PrefFree data := (prefFree_perm hperm).mp
      ((prefFree_iff_adjacent_of_sorted hsort).mpr hadj)
    simp [isError, hpf]

/-- Restating `¬ PrefFree` in terms of two distinct positions whose paths
stand in a prefix relationship. -/
theorem not_prefFree_iff {l : List FieldPath} :
    ¬ PrefFree l ↔
      ∃ (i j : ℕ) (hi : i < l.length) (hj : j < l.length),
        i ≠ j ∧ fpIsPrefixOf (l.get ⟨i, hi⟩) (l.get ⟨j, hj⟩) := by
  unfold PrefFree
  rw [List.pairwise_iff_getElem]
  simp only [List.get_eq_getElem]
  constructor
  · intro h
    push_neg at h
    obtain ⟨i, j, hi, hj, hij, hc⟩ := h
    by_cases hb : fpIsPrefixOf l[i] l[j] = true
    · exact ⟨i, j, hi, hj, Nat.ne_of_lt hij, hb⟩
    · rw [Bool.not_eq_true] at hb
      have h2 := hc hb
      rw [Bool.ne_false_iff] at h2
      exact ⟨j, i, hj, hi, (Nat.ne_of_lt hij).symm, h2⟩
  · intro h hall
    obtain ⟨i, j, hi, hj, hij, hpre⟩ := h
    rcases Nat.lt_or_ge i j with hlt | hge
    · have hres := (hall i j hi hj hlt).1
      rw [hpre] at hres
      exact absurd hres (by simp)
    · have hlt : j < i := Nat.lt_of_le_of_ne hge (Ne.symm hij)
      have hres := (hall j i hj hi hlt).2
      rw [hpre] at hres
      exact absurd hres (by simp)

/-- **C5**: for every update map, `validateUpdate` raises a "specified
multiple times" error if and only if some two distinct entries' paths
stand in a prefix relationship (including equal paths and parent/child
pairs); when no such pair exists it succeeds — the adjacent-pair scan
over the sorted path list detects every such conflict. -/
theorem validateUpdate_conflict_iff (data : List FieldPath) :
    isError (validateUpdate data) = true ↔
      ∃ (i j : ℕ) (hi : i < data.length) (hj : j < data.length),
        i ≠ j ∧ fpIsPrefixOf (data.get ⟨i, hi⟩) (data.get ⟨j, hj⟩) := by
  rw [← not_prefFree_iff]
  constructor
  · intro h hpf
    have hok := validateUpdate_ok_iff.mpr hpf
    rw [h] at hok
    exact absurd hok (by simp)
  · intro h
    by_contra hne
    rw [Bool.not_eq_true] at hne
    exact h (validateUpdate_ok_iff.mp hne)

theorem validateUpdate_parent_child_conflict :
    isError (validateUpdate [["a", "b"], ["a"]]) = true := by decide

theorem validateUpdate_duplicate_conflict :
    isError (validateUpdate [["a"], ["a"]]) = true := by decide

theorem validateUpdate_nonadjacent_conflict :
    isError (validateUpdate [["a"], ["b"], ["a", "c"]]) = true := by decide

theorem validateUpdate_disjoint_ok :
    isError (validateUpdate [["a"], ["b"], ["c", "d"]]) = false := by decide

theorem validateUpdate_sibling_segment_ok :
    isError (validateUpdate [["ab"], ["a"]]) = false := by decide

/-! ## Document values

A closed tagged-variant model of the JavaScript values that can appear
inside a Firestore document argument (§9 of the spec recommends exactly
this re-modelling of the runtime type dispatch): plain primitives,
delete / server-timestamp sentinels (`FieldValue` instances), `FieldPath`
and `DocumentReference` instances, arrays, and plain objects. -/

inductive Prim
  | nullV
  | boolV (b : Bool)
  | intV (n : Int)
  | strV (s : String)
  | tsV (t : Int)
deriving DecidableEq

inductive FireValue
  | prim (p : Prim)
  | deleteSentinel
  | serverTimestamp
  | fieldPathV (segs : List String)
  | docRefV (name : String)
  | arr (elems : List FireValue)
  | obj (fields : List (String × FireValue))

/-- Errors raised by the mutation pipeline: argument validation failures
and the "batch already committed" state error. -/
inductive VErr
  | invalidArgument (description : String)
  | stateError
deriving DecidableEq

/-- JavaScript `typeof v === 'object'` for a document-argument value
(`null`, sentinel/`Timestamp`/`FieldPath`/reference instances, arrays and
plain objects are all objects). -/
def typeofIsObject : FireValue → Bool
  | .prim .nullV => true
  | .prim (.tsV _) => true
  | .prim _ => false
  | _ => true

/-- Property lookup on a JavaScript object value; anything that is not a
plain object yields `undefined` (modelled as `none`) for the properties
the embedded code reads. -/
def lookupField : List (String × FireValue) → String → Option FireValue
  | [], _ => none
  | (k', v) :: rest, k => if k' = k then some v else lookupField rest k

def getProp : FireValue → String → Option FireValue
  | .obj fields, k => lookupField fields k
  | _, _ => none

/-- `Modelled from the spec:` `serializer.isPlainObject` — a plain
JavaScript object literal (domain instances are separate variants in this
model). -/
def isPlainObject : FireValue → Bool
  | .obj _ => true
  | _ => false

/-! ### Field-path argument validation

`Modelled from the spec:` `path.ts` (`validateFieldPath`,
`FieldPath.fromArgument`) is not part of this snapshot.  A field-path
argument is a dotted string (every dot-separated segment non-empty) or a
`FieldPath` instance. -/

/-- Split a character list at `'.'` separators. -/
def splitSegs : List Char → List (List Char)
  | [] => [[]]
  | c :: rest =>
    match splitSegs rest with
    | [] => [[]]
    | s :: ss => if c = '.' then [] :: s :: ss else (c :: s) :: ss

def isValidDottedPath (s : String) : Bool :=
  !s.data.isEmpty && (splitSegs s.data).all (fun seg => !seg.isEmpty)

def parseDottedPath (s : String) : FieldPath :=
  (splitSegs s.data).map (fun seg => String.mk seg)

def validateFieldPathArg (v : FireValue) : Except VErr Unit :=
  match v with
  | .prim (.strV s) =>
    if isValidDottedPath s then Except.ok ()
    else Except.error (VErr.invalidArgument "not a valid field path string")
  | .fieldPathV _ => Except.ok ()
  | _ => Except.error (VErr.invalidArgument "not a valid field path")

def fieldPathFromArgument (v : FireValue) : FieldPath :=
  match v with
  | .prim (.strV s) => parseDottedPath s
  | .fieldPathV segs => segs
  | _ => []

/-! ### validateUserInput / validateDocumentData

`validateDocumentData` is in `write-batch.ts`; the per-value
`validateUserInput` it calls lives in `document.ts`.
`Modelled from the spec:` `validateUserInput` classifies each leaf as
plain / delete-sentinel / transform-sentinel; delete sentinels are
rejected outright in full-replace mode (`allowDeletes = 'none'`), allowed
only as direct leaf values of an update map (`'root'`), and allowed
anywhere in merge mode (`'all'`); transforms are allowed at the call
sites embedded here; `FieldPath` instances are not valid field values. -/

inductive AllowDeletes
  | noneAllowed
  | root
  | all
deriving DecidableEq

mutual
def validateUserInput (allowDeletes : AllowDeletes) (atRoot : Bool) :
    FireValue → Except VErr Unit
  | .deleteSentinel =>
    match allowDeletes with
    | .all => Except.ok ()
    | .root =>
      if atRoot then Except.ok ()
      else Except.error (VErr.invalidArgument "FieldValue.delete() must appear at the top-level")
    | .noneAllowed => Except.error (VErr.invalidArgument "FieldValue.delete() cannot be used here")
  | .serverTimestamp => Except.ok ()
  | .fieldPathV _ => Except.error (VErr.invalidArgument "cannot use a FieldPath as a field value")
  | .obj fields => validateUserInputFields allowDeletes fields
  | .arr elems => validateUserInputList allowDeletes elems
  | .prim _ => Except.ok ()
  | .docRefV _ => Except.ok ()

def validateUserInputFields (allowDeletes : AllowDeletes) :
    List (String × FireValue) → Except VErr Unit
  | [] => Except.ok ()
  | (_, v) :: rest =>
    match validateUserInput allowDeletes false v with
    | Except.error e => Except.error e
    | Except.ok _ => validateUserInputFields allowDeletes rest

def validateUserInputList (allowDeletes : AllowDeletes) :
    List FireValue → Except VErr Unit
  | [] => Except.ok ()
  | v :: rest =>
    match validateUserInput allowDeletes false v with
    | Except.error e => Except.error e
    | Except.ok _ => validateUserInputList allowDeletes rest
end

/-- `validateDocumentData` (`write-batch.ts`): the argument must be a
plain object, and every property value must be a valid document value
(deletes allowed exactly when `allowDeletes` is set). -/
def validateDocumentData (data : FireValue) (allowDeletes : Bool) : Except VErr Unit :=
  match data with
  | .obj fields =>
    validateUserInputFields (if allowDeletes then AllowDeletes.all else AllowDeletes.noneAllowed) fields
  | _ => Except.error (VErr.invalidArgument "data is not a valid Firestore document")

/-- `validateFieldValue` (`document.ts`, spec-modelled): an update value
may carry a delete sentinel only at its root. -/
def validateFieldValue (v : FireValue) : Except VErr Unit :=
  validateUserInput AllowDeletes.root true v

/-! ### Document value model: snapshot, transforms, masks

`Modelled from the spec:` `DocumentSnapshot` / `DocumentTransform` /
`DocumentMask` live in `document.ts`, which is not part of this
snapshot.  The snapshot is the plain-value projection of the input
(delete and transform sentinels are excluded; a nested object whose
entries were all sentinels survives as an empty map); the transform list
collects the full dotted paths of transform-sentinel leaves; the mask
built `fromObject` contains the leaf paths of non-transform values
(delete sentinels included, an empty object counting as a leaf). -/

mutual
def snapValue : FireValue → Option FireValue
  | .deleteSentinel => none
  | .serverTimestamp => none
  | .obj fs => some (.obj (snapFields fs))
  | .prim p => some (.prim p)
  | .fieldPathV s => some (.fieldPathV s)
  | .docRefV n => some (.docRefV n)
  | .arr es => some (.arr es)

def snapFields : List (String × FireValue) → List (String × FireValue)
  | [] => []
  | (k, v) :: rest =>
    match snapValue v with
    | some v' => (k, v') :: snapFields rest
    | none => snapFields rest
end

mutual
def transformPathsOf (basePath : List String) : FireValue → List FieldPath
  | .serverTimestamp => [basePath]
  | .obj fs => transformPathsOfFields basePath fs
  | _ => []

def transformPathsOfFields (basePath : List String) :
    List (String × FireValue) → List FieldPath
  | [] => []
  | (k, v) :: rest =>
    transformPathsOf (basePath ++ [k]) v ++ transformPathsOfFields basePath rest
end

mutual
def maskPathsOf (basePath : List String) : FireValue → List FieldPath
  | .serverTimestamp => []
  | .obj [] => [basePath]
  | .obj (f :: fs) => maskPathsOfFields basePath (f :: fs)
  | _ => [basePath]

def maskPathsOfFields (basePath : List String) :
    List (String × FireValue) → List FieldPath
  | [] => []
  | (k, v) :: rest =>
    maskPathsOf (basePath ++ [k]) v ++ maskPathsOfFields basePath rest
end

/-- `DocumentMask.applyTo` (spec-modelled): project the input down to the
allowed paths; a value is kept whole when its path extends an allowed
path, recursed into when some allowed path extends its path, and dropped
otherwise. -/
def applyToFields (mask : List FieldPath) (basePath : List String) :
    List (String × FireValue) → List (String × FireValue)
  | [] => []
  | (k, v) :: rest =>
    let p := basePath ++ [k]
    if mask.any (fun m => fpIsPrefixOf m p) then
      (k, v) :: applyToFields mask basePath rest
    else
      match v with
      | .obj fs =>
        if mask.any (fun m => fpIsPrefixOf p m) then
          match applyToFields mask p fs with
          | [] => applyToFields mask basePath rest
          | sub => (k, .obj sub) :: applyToFields mask basePath rest
        else applyToFields mask basePath rest
      | _ => applyToFields mask basePath rest

/-! ### Preconditions and wire protos -/

inductive PrecondProto
  | existsP (b : Bool)
  | updateTimeP (t : Int)
deriving DecidableEq

/-- `Modelled from the spec:` `Precondition` (`document.ts`) — built from
an options object carrying at most one of `exists` / `lastUpdateTime`;
`toProto` yields nothing when no condition is set. -/
def preconditionToProto (arg : Option FireValue) : Option PrecondProto :=
  match arg with
  | none => none
  | some v =>
    match getProp v "exists" with
    | some (.prim (.boolV b)) => some (.existsP b)
    | _ =>
      match getProp v "lastUpdateTime" with
      | some (.prim (.tsV t)) => some (.updateTimeP t)
      | _ => none

/-- Model of an `api.IWrite` wire entry (a write or a transform). -/
structure WriteProto where
  deleteName : Option String := none
  updateName : Option String := none
  fields : Option (List (String × FireValue)) := none
  fieldsByPath : Option (List (FieldPath × FireValue)) := none
  updateMask : Option (List FieldPath) := none
  fieldTransforms : Option (List FieldPath) := none
  currentDocument : Option PrecondProto := none

/-- One queued logical operation (`WriteOp` in `write-batch.ts`). -/
structure WriteOp where
  write : Option WriteProto := none
  transform : Option WriteProto := none
  precondition : Option PrecondProto := none

/-- The mutable state of a `WriteBatch`. -/
structure WriteBatch where
  writes : List WriteOp := []
  committed : Bool := false

/-! ### Precondition validation (`write-batch.ts`) -/

def isNullV : FireValue → Bool
  | .prim .nullV => true
  | _ => false

/-- `validatePrecondition`: the argument must be a non-null object with
at most one of `exists` (boolean, only where allowed) and
`lastUpdateTime` (a `Timestamp` instance). -/
def validatePrecondition (val : FireValue) (allowExist : Bool) : Except VErr Unit :=
  if !typeofIsObject val || isNullV val then
    Except.error (VErr.invalidArgument "Input is not an object.")
  else
    let existsProp := getProp val "exists"
    let lastUpdateProp := getProp val "lastUpdateTime"
    match existsProp with
    | some e =>
      if !allowExist then
        Except.error (VErr.invalidArgument "\"exists\" is not an allowed condition.")
      else
        match e with
        | .prim (.boolV _) =>
          match lastUpdateProp with
          | some _ => Except.error (VErr.invalidArgument "Input contains more than one condition.")
          | none => Except.ok ()
        | _ => Except.error (VErr.invalidArgument "\"exists\" is not a boolean.")
    | none =>
      match lastUpdateProp with
      | some (.prim (.tsV _)) => Except.ok ()
      | some _ => Except.error (VErr.invalidArgument "\"lastUpdateTime\" is not a Firestore Timestamp.")
      | none => Except.ok ()

def validateUpdatePrecondition (precondition : Option FireValue) : Except VErr Unit :=
  match precondition with
  | none => Except.ok ()
  | some v => validatePrecondition v false

def validateDeletePrecondition (precondition : Option FireValue) : Except VErr Unit :=
  match precondition with
  | none => Except.ok ()
  | some v => validatePrecondition v true

/-- `validateDocumentReference` (`reference.ts`, spec-modelled): the
argument must be a `DocumentReference` instance. -/
def validateDocumentReference (v : FireValue) : Except VErr Unit :=
  match v with
  | .docRefV _ => Except.ok ()
  | _ => Except.error (VErr.invalidArgument "documentRef is not a valid DocumentReference.")

/-- `validateSetOptions` (`write-batch.ts`): an optional non-null object;
`merge` must be boolean, `mergeFields` an array of valid field paths, and
the two are mutually exclusive. -/
def validateSetOptions (val : Option FireValue) : Except VErr Unit :=
  match val with
  | none => Except.ok ()
  | some v =>
    if !typeofIsObject v || isNullV v then
      Except.error (VErr.invalidArgument "set() option: Input is not an object.")
    else
      let mergeProp := getProp v "merge"
      let mergeFieldsProp := getProp v "mergeFields"
      let step1 : Except VErr Unit :=
        match mergeProp with
        | none => Except.ok ()
        | some (.prim (.boolV _)) => Except.ok ()
        | some _ => Except.error (VErr.invalidArgument "set() option: \"merge\" is not a boolean.")
      match step1 with
      | Except.error e => Except.error e
      | Except.ok _ =>
        let step2 : Except VErr Unit :=
          match mergeFieldsProp with
          | none => Except.ok ()
          | some (.arr elems) => validateMergeFieldElems elems
          | some _ => Except.error (VErr.invalidArgument "set() option: \"mergeFields\" is not an array.")
        match step2 with
        | Except.error e => Except.error e
        | Except.ok _ =>
          match mergeProp, mergeFieldsProp with
          | some _, some _ =>
            Except.error (VErr.invalidArgument "set() option: You cannot specify both \"merge\" and \"mergeFields\".")
          | _, _ => Except.ok ()
where
  validateMergeFieldElems : List FireValue → Except VErr Unit
    | [] => Except.ok ()
    | e :: rest =>
      match validateFieldPathArg e with
      | Except.error _ => Except.error (VErr.invalidArgument "set() option: \"mergeFields\" is not valid")
      | Except.ok _ => validateMergeFieldElems rest

/-! ## The four batch operations (`write-batch.ts`) -/

/-- The formatted name of a (validated) document reference. -/
def refName : FireValue → String
  | .docRefV n => n
  | _ => ""

/-- The field list of a (validated) plain object. -/
def objFields : FireValue → List (String × FireValue)
  | .obj fs => fs
  | _ => []

/-- `WriteBatch.create`: validates the reference and the data (deletes
disallowed), checks the committed flag, then queues one operation whose
write entry is present iff the plain snapshot is non-empty or there are
no transforms, whose transform entry is present iff there are transforms,
and whose precondition is `exists: false`. -/
def WriteBatch.create (b : WriteBatch) (documentRef data : FireValue) :
    Except VErr Unit × WriteBatch :=
  match validateDocumentReference documentRef with
  | Except.error e => (Except.error e, b)
  | Except.ok _ =>
    match validateDocumentData data false with
    | Except.error e => (Except.error e, b)
    | Except.ok _ =>
      if b.committed then (Except.error VErr.stateError, b)
      else
        let name := refName documentRef
        let fields := objFields data
        let snap := snapFields fields
        let tpaths := transformPathsOfFields [] fields
        let writeEntry : Option WriteProto :=
          if !snap.isEmpty || tpaths.isEmpty then
            some { updateName := some name, fields := some snap }
          else none
        let transformEntry : Option WriteProto :=
          if tpaths.isEmpty then none
          else some { updateName := some name, fieldTransforms := some tpaths }
        (Except.ok (),
         { b with writes := b.writes ++
            [{ write := writeEntry, transform := transformEntry,
               precondition := some (PrecondProto.existsP false) }] })

/-- `WriteBatch.delete`: validates the reference and the optional
precondition, checks the committed flag, then queues a single delete
write entry carrying the precondition proto (absent when the caller gave
no condition). -/
def WriteBatch.delete (b : WriteBatch) (documentRef : FireValue)
    (precondition : Option FireValue) : Except VErr Unit × WriteBatch :=
  match validateDocumentReference documentRef with
  | Except.error e => (Except.error e, b)
  | Except.ok _ =>
    match validateDeletePrecondition precondition with
    | Except.error e => (Except.error e, b)
    | Except.ok _ =>
      if b.committed then (Except.error VErr.stateError, b)
      else
        (Except.ok (),
         { b with writes := b.writes ++
            [{ write := some { deleteName := some (refName documentRef) },
               precondition := preconditionToProto precondition }] })

/-- `WriteBatch.set`: full-replace or merge depending on the options
(`merge` and `mergeFields` were already checked to be exclusive by
`validateSetOptions`). -/
def WriteBatch.set (b : WriteBatch) (documentRef data : FireValue)
    (options : Option FireValue) : Except VErr Unit × WriteBatch :=
  match validateSetOptions options with
  | Except.error e => (Except.error e, b)
  | Except.ok _ =>
    let mergeLeaves :=
      match options with
      | some o => match getProp o "merge" with
        | some (.prim (.boolV true)) => true
        | _ => false
      | none => false
    let mergeFieldsOpt : Option (List FireValue) :=
      match options with
      | some o => match getProp o "mergeFields" with
        | some (.arr es) => some es
        | _ => none
      | none => none
    -- JavaScript truthiness: any array (even empty) is truthy
    let mergePaths := mergeFieldsOpt.isSome
    match validateDocumentReference documentRef with
    | Except.error e => (Except.error e, b)
    | Except.ok _ =>
      match validateDocumentData data (mergePaths || mergeLeaves) with
      | Except.error e => (Except.error e, b)
      | Except.ok _ =>
        if b.committed then (Except.error VErr.stateError, b)
        else
          let name := refName documentRef
          let fields := objFields data
          let maskFromMergeFields : List FieldPath :=
            match mergeFieldsOpt with
            | some es => es.map fieldPathFromArgument
            | none => []
          let fields' :=
            if mergePaths then applyToFields maskFromMergeFields [] fields else fields
          let tpaths := transformPathsOfFields [] fields'
          let snap := snapFields fields'
          let documentMask : List FieldPath :=
            if mergePaths then
              maskFromMergeFields.filter (fun p => !tpaths.contains p)
            else maskPathsOfFields [] fields'
          let hasDocumentData := !snap.isEmpty || !documentMask.isEmpty
          let writeEntry : Option WriteProto :=
            if !mergePaths && !mergeLeaves then
              some { updateName := some name, fields := some snap }
            else if hasDocumentData || tpaths.isEmpty then
              some { updateName := some name, fields := some snap,
                     updateMask := some documentMask }
            else none
          let transformEntry : Option WriteProto :=
            if tpaths.isEmpty then none
            else some { updateName := some name, fieldTransforms := some tpaths }
          (Except.ok (),
           { b with writes := b.writes ++
              [{ write := writeEntry, transform := transformEntry,
                 precondition := none }] })

/-! ### update -/

/-- `typeof dataOrField === 'string' || dataOrField instanceof FieldPath`. -/
def usesVarargsArg : FireValue → Bool
  | .prim (.strV _) => true
  | .fieldPathV _ => true
  | _ => false

/-- The varargs walk in `WriteBatch.update`: field/value pairs, with the
last argument (when at an odd distance) validated as a precondition. -/
def varargsLoop : List FireValue → Except VErr (List (FieldPath × FireValue) × Option FireValue)
  | [] => Except.ok ([], none)
  | [last] =>
    match validateUpdatePrecondition (some last) with
    | Except.error e => Except.error e
    | Except.ok _ => Except.ok ([], some last)
  | pathArg :: valueArg :: restArgs =>
    match validateFieldPathArg pathArg with
    | Except.error e => Except.error e
    | Except.ok _ =>
      let fp := fieldPathFromArgument pathArg
      match validateFieldValue valueArg with
      | Except.error e => Except.error e
      | Except.ok _ =>
        match varargsLoop restArgs with
        | Except.error e => Except.error e
        | Except.ok (m, pc) => Except.ok ((fp, valueArg) :: m, pc)

/-- Per-field validation of `validateUpdateMap`: each value may carry a
delete sentinel only at its root. -/
def validateUpdateMapFields : List (String × FireValue) → Except VErr Unit
  | [] => Except.ok ()
  | (_, v) :: rest =>
    match validateUserInput AllowDeletes.root true v with
    | Except.error e => Except.error e
    | Except.ok _ => validateUpdateMapFields rest

/-- `validateUpdateMap` (`write-batch.ts`): a plain, non-empty object of
valid update values. -/
def validateUpdateMap (obj : FireValue) : Except VErr Unit :=
  match obj with
  | .obj [] => Except.error (VErr.invalidArgument "At least one field must be updated.")
  | .obj fields => validateUpdateMapFields fields
  | _ => Except.error (VErr.invalidArgument "dataOrField is not a valid Firestore document")

/-- Key validation and collection for the update-map call form
(`validateFieldPath(key, key)` then `updateMap.set(...)`). -/
def collectUpdateMapFields : List (String × FireValue) → Except VErr (List (FieldPath × FireValue))
  | [] => Except.ok []
  | (k, v) :: rest =>
    if isValidDottedPath k then
      match collectUpdateMapFields rest with
      | Except.error e => Except.error e
      | Except.ok m => Except.ok ((parseDottedPath k, v) :: m)
    else Except.error (VErr.invalidArgument "not a valid field path string")

/-- The usage-message prefix added when either `update` call form fails
inner validation. -/
def wrapArgumentError : VErr → VErr
  | VErr.invalidArgument d =>
    VErr.invalidArgument
      ("Update() requires either a single JavaScript object or an alternating list of field/value pairs that can be followed by an optional precondition. " ++ d)
  | e => e

/-- `WriteBatch.update`: `rest` models the JavaScript varargs
(`arguments` is `documentRef :: rest`). -/
def WriteBatch.update (b : WriteBatch) (documentRef : FireValue)
    (rest : List FireValue) : Except VErr Unit × WriteBatch :=
  match rest with
  | [] =>
    -- validateMinNumberOfArguments('update', arguments, 2)
    (Except.error (VErr.invalidArgument "Function update() requires at least 2 arguments."), b)
  | dataOrField :: preconditionOrValues =>
    match validateDocumentReference documentRef with
    | Except.error e => (Except.error e, b)
    | Except.ok _ =>
      if b.committed then (Except.error VErr.stateError, b)
      else
        let collected : Except VErr (List (FieldPath × FireValue) × Option FireValue) :=
          if usesVarargsArg dataOrField then
            match varargsLoop (dataOrField :: preconditionOrValues) with
            | Except.error e => Except.error (wrapArgumentError e)
            | Except.ok r => Except.ok r
          else
            match validateUpdateMap dataOrField with
            | Except.error e => Except.error (wrapArgumentError e)
            | Except.ok _ =>
              -- validateMaxNumberOfArguments('update', arguments, 3)
              if 1 + rest.length > 3 then
                Except.error (wrapArgumentError
                  (VErr.invalidArgument "Function update() accepts at most 3 arguments."))
              else
                match collectUpdateMapFields (objFields dataOrField) with
                | Except.error e => Except.error (wrapArgumentError e)
                | Except.ok m =>
                  match preconditionOrValues with
                  | [] => Except.ok (m, none)
                  | pc :: _ =>
                    match validateUpdatePrecondition (some pc) with
                    | Except.error e => Except.error (wrapArgumentError e)
                    | Except.ok _ => Except.ok (m, some pc)
        match collected with
        | Except.error e => (Except.error e, b)
        | Except.ok (updateMap, explicitPrecond) =>
          match validateUpdate (updateMap.map Prod.fst) with
          | Except.error msg => (Except.error (VErr.invalidArgument msg), b)
          | Except.ok _ =>
            let name := refName documentRef
            let snap := updateMap.filterMap
              (fun kv => (snapValue kv.2).map (fun v => (kv.1, v)))
            let mask := updateMap.filterMap (fun kv =>
              match kv.2 with
              | .serverTimestamp => none
              | _ => some kv.1)
            let tpaths := updateMap.foldr
              (fun kv acc => transformPathsOf kv.1 kv.2 ++ acc) []
            let precond : Option PrecondProto :=
              match explicitPrecond with
              | some pcArg => preconditionToProto (some pcArg)
              | none => some (PrecondProto.existsP true)
            let writeEntry : Option WriteProto :=
              if !snap.isEmpty || !mask.isEmpty then
                some { updateName := some name, fieldsByPath := some snap,
                       updateMask := some mask }
              else none
            let transformEntry : Option WriteProto :=
              if tpaths.isEmpty then none
              else some { updateName := some name, fieldTransforms := some tpaths }
            (Except.ok (),
             { b with writes := b.writes ++
                [{ write := writeEntry, transform := transformEntry,
                   precondition := precond }] })

/-! ## Commit protocol (`write-batch.ts`) -/

/-- `GCF_IDLE_TIMEOUT_MS = 110 * 1000`. -/
def GCF_IDLE_TIMEOUT_MS : Int := 110 * 1000

/-- The client state read by `_shouldCreateTransaction`, plus the current
clock value.  `lastSuccessfulRequest = none` models the falsy initial
value of `_lastSuccessfulRequest` (no successful request yet). -/
structure CommitEnv where
  preferTransactions : Bool
  lastSuccessfulRequest : Option Int
  now : Int

/-- `WriteBatch._shouldCreateTransaction`. -/
def shouldCreateTransaction (env : CommitEnv) : Bool :=
  if !env.preferTransactions then false
  else
    match env.lastSuccessfulRequest with
    | some t => env.now - t > GCF_IDLE_TIMEOUT_MS
    | none => true

/-- Attach the operation's precondition to its write entry, falling back
to the transform entry (`(req.write || req.transform)!.currentDocument =
req.precondition`). -/
def attachPrecondition (op : WriteOp) : WriteOp :=
  match op.precondition with
  | some pc =>
    match op.write with
    | some w => { op with write := some { w with currentDocument := some pc } }
    | none => { op with transform := op.transform.map (fun t => { t with currentDocument := some pc }) }
  | none => op

/-- The wire entries of one logical operation, write before transform. -/
def opWireList (op : WriteOp) : List WriteProto :=
  let op' := attachPrecondition op
  op'.write.toList ++ op'.transform.toList

/-- The `request.writes` flattening loop of `commit_`; `none` models the
`assert(req.write || req.transform)` failure. -/
def buildCommitWrites : List WriteOp → Option (List WriteProto)
  | [] => some []
  | op :: rest =>
    if op.write.isNone && op.transform.isNone then none
    else (buildCommitWrites rest).map (fun ws => opWireList op ++ ws)

structure CommitRequest where
  database : String
  writes : List WriteProto
  transaction : Option (List Nat)

inductive RpcCall
  | beginTransaction
  | commit (req : CommitRequest)

/-- `WriteBatch.commit_`, as the sequence of RPC calls it issues together
with the updated batch (`none` when the flattening assertion fires, in
which case the batch is left untouched).  The transaction-upgrade branch
recursively re-invokes `commit_` with the id returned by
`beginTransaction` (modelled by the `beginTxId` oracle); that inner
invocation carries a transaction id, so it takes the direct path — the
recursion is therefore inlined at depth two.  `commit_` performs no
committed-flag check, and sets the flag before the commit RPC's outcome
is known. -/
def commit_ (b : WriteBatch) (db : String) (explicitTransaction : Option (List Nat))
    (env : CommitEnv) (beginTxId : List Nat) : List RpcCall × Option WriteBatch :=
  if explicitTransaction.isNone && shouldCreateTransaction env then
    match buildCommitWrites b.writes with
    | some ws =>
      ([RpcCall.beginTransaction,
        RpcCall.commit { database := db, writes := ws, transaction := some beginTxId }],
       some { b with committed := true })
    | none => ([RpcCall.beginTransaction], none)
  else
    match buildCommitWrites b.writes with
    | some ws =>
      ([RpcCall.commit { database := db, writes := ws, transaction := explicitTransaction }],
       some { b with committed := true })
    | none => ([], none)

/-- The commit RPC response: the batch-wide commit time and the
per-wire-entry results, each an optional update time.  `writeResults =
none` models a response whose `writeResults` is not an array. -/
structure CommitResponse where
  commitTime : Int
  writeResults : Option (List (Option Int))

/-- The demultiplexing loop of `commit_`'s response handler: one result
per logical operation, skipping the write entry's result when the
operation also sent a transform (`++offset` before the read). -/
def demuxLoop (results : List (Option Int)) (commitTime : Int) :
    List WriteOp → Nat → Nat → Option (List Int)
  | [], _, _ => some []
  | op :: rest, i, offset =>
    let offset' := if op.write.isSome && op.transform.isSome then offset + 1 else offset
    match results.get? (i + offset') with
    | none => none
    | some ut =>
      (demuxLoop results commitTime rest (i + 1) offset').map
        (fun tail => ut.getD commitTime :: tail)

/-- The response handler of `commit_`: an empty request resolves to `[]`
without inspecting `writeResults`; otherwise `writeResults` must be an
array of exactly one entry per submitted wire write
(the defensive assertion), and the results are demultiplexed. -/
def processCommitResponse (ops : List WriteOp) (requestWrites : List WriteProto)
    (resp : CommitResponse) : Option (List Int) :=
  if requestWrites.length > 0 then
    match resp.writeResults with
    | some rs =>
      if rs.length = requestWrites.length then demuxLoop rs resp.commitTime ops 0 0
      else none
    | none => none
  else some []

/-- Number of wire entries of one logical operation. -/
def opWireCount (op : WriteOp) : Nat :=
  (if op.write.isSome then 1 else 0) + (if op.transform.isSome then 1 else 0)

/-- Total number of wire entries of a batch. -/
def totalWireCount (ops : List WriteOp) : Nat :=
  match ops with
  | [] => 0
  | op :: rest => opWireCount op + totalWireCount rest

/-- Specification of the demultiplexed results (following the spec's
words): one result per logical operation, in order, each taken from the
flat result at the index of the operation's **last** wire entry — the
transform's, when the operation sent both a write and a transform —
falling back to the batch commit time when the server reported no update
time there. -/
def commitResultsSpec (results : List (Option Int)) (commitTime : Int) :
    List WriteOp → Nat → List Int
  | [], _ => []
  | op :: rest, base =>
    (results.getD (base + opWireCount op - 1) none).getD commitTime ::
      commitResultsSpec results commitTime rest (base + opWireCount op)

/-! ### Correctness of the result demultiplexer (C1) -/

theorem attachPrecondition_write_isSome (op : WriteOp) :
    (attachPrecondition op).write.isSome = op.write.isSome := by
  unfold attachPrecondition
  cases op.precondition <;> cases hw : op.write <;> simp [hw]

theorem attachPrecondition_transform_isSome (op : WriteOp) :
    (attachPrecondition op).transform.isSome = op.transform.isSome := by
  unfold attachPrecondition
  cases op.precondition <;> cases hw : op.write <;> simp [hw]

theorem opWireList_length (op : WriteOp) :
    (opWireList op).length = opWireCount op := by
  unfold opWireList opWireCount
  cases hp : op.precondition <;> cases hw : op.write <;> cases ht : op.transform <;>
    simp [attachPrecondition, hp, hw, ht]

theorem buildCommitWrites_length : ∀ {ops : List WriteOp} {ws : List WriteProto},
    buildCommitWrites ops = some ws → ws.length = totalWireCount ops := by
  intro ops
  induction ops with
  | nil =>
    intro ws h
    have h2 : some ([] : List WriteProto) = some ws := h
    cases h2
    rfl
  | cons op rest ih =>
    intro ws h
    simp only [buildCommitWrites] at h
    split at h
    · exact absurd h (by simp)
    · match hrec : buildCommitWrites rest with
      | none => rw [hrec] at h; simp at h
      | some ws' =>
        rw [hrec] at h
        simp only [Option.map_some', Option.some.injEq] at h
        subst h
        simp only [List.length_append, opWireList_length, totalWireCount]
        rw [ih hrec]

theorem buildCommitWrites_entries : ∀ {ops : List WriteOp} {ws : List WriteProto},
    buildCommitWrites ops = some ws →
    ∀ op ∈ ops, op.write.isSome ∨ op.transform.isSome := by
  intro ops
  induction ops with
  | nil => intro ws _ op hm; exact absurd hm (List.not_mem_nil op)
  | cons o rest ih =>
    intro ws h op hm
    simp only [buildCommitWrites] at h
    split at h
    · exact absurd h (by simp)
    · rename_i hcond
      rw [List.mem_cons] at hm
      rcases hm with rfl | hm
      · cases hwrite : op.write with
        | some w => exact Or.inl (by simp [hwrite])
        | none =>
          cases htrans : op.transform with
          | some t => exact Or.inr (by simp [htrans])
          | none =>
            exfalso
            apply hcond
            rw [Bool.and_eq_true]
            exact ⟨by simp [hwrite], by simp [htrans]⟩
      · match hrec : buildCommitWrites rest with
        | none => rw [hrec] at h; simp at h
        | some ws' => exact ih hrec op hm

theorem opWireCount_pos {op : WriteOp}
    (h : op.write.isSome ∨ op.transform.isSome) : 1 ≤ opWireCount op := by
  unfold opWireCount
  rcases h with h | h <;> rw [h] <;> simp

theorem demuxLoop_eq_spec (results : List (Option Int)) (ct : Int) :
    ∀ (ops : List WriteOp) (i offset : Nat),
      (∀ op ∈ ops, op.write.isSome ∨ op.transform.isSome) →
      i + offset + totalWireCount ops ≤ results.length →
      demuxLoop results ct ops i offset =
        some (commitResultsSpec results ct ops (i + offset)) := by
  intro ops
  induction ops with
  | nil => intro i offset _ _; rfl
  | cons op rest ih =>
    intro i offset hops hlen
    have hop : op.write.isSome ∨ op.transform.isSome :=
      hops op (List.mem_cons_self op rest)
    have hrest : ∀ o ∈ rest, o.write.isSome ∨ o.transform.isSome :=
      fun o ho => hops o (List.mem_cons_of_mem op ho)
    have htot : totalWireCount (op :: rest) = opWireCount op + totalWireCount rest := rfl
    rw [htot] at hlen
    rcases Bool.eq_false_or_eq_true op.write.isSome with hw | hw <;>
      rcases Bool.eq_false_or_eq_true op.transform.isSome with ht | ht
    · -- both write and transform
      have hc : opWireCount op = 2 := by simp [opWireCount, hw, ht]
      rw [hc] at hlen
      have hlt : i + (offset + 1) < results.length := by omega
      have hoff : (if (op.write.isSome && op.transform.isSome) = true
          then offset + 1 else offset) = offset + 1 := by simp [hw, ht]
      simp only [demuxLoop, commitResultsSpec, hoff, hc]
      rw [List.get?_eq_getElem?, List.getElem?_eq_getElem hlt]
      have hrec := ih (i + 1) (offset + 1) hrest (by omega)
      have harith : i + 1 + (offset + 1) = i + offset + 2 := by omega
      rw [harith] at hrec
      rw [hrec]
      simp only [Option.map_some', Option.some.injEq, List.cons.injEq]
      constructor
      · have hdx : i + offset + 2 - 1 = i + (offset + 1) := by omega
        rw [hdx, List.getD_eq_getElem?_getD, List.getElem?_eq_getElem hlt]
        rfl
      · trivial
    · -- write only
      have hc : opWireCount op = 1 := by simp [opWireCount, hw, ht]
      rw [hc] at hlen
      have hlt : i + offset < results.length := by omega
      have hoff : (if (op.write.isSome && op.transform.isSome) = true
          then offset + 1 else offset) = offset := by simp [hw, ht]
      simp only [demuxLoop, commitResultsSpec, hoff, hc]
      rw [List.get?_eq_getElem?, List.getElem?_eq_getElem hlt]
      have hrec := ih (i + 1) offset hrest (by omega)
      have harith : i + 1 + offset = i + offset + 1 := by omega
      rw [harith] at hrec
      rw [hrec]
      simp only [Option.map_some', Option.some.injEq, List.cons.injEq]
      constructor
      · have hdx : i + offset + 1 - 1 = i + offset := by omega
        rw [hdx, List.getD_eq_getElem?_getD, List.getElem?_eq_getElem hlt]
        rfl
      · trivial
    · -- transform only
      have hc : opWireCount op = 1 := by simp [opWireCount, hw, ht]
      rw [hc] at hlen
      have hlt : i + offset < results.length := by omega
      have hoff : (if (op.write.isSome && op.transform.isSome) = true
          then offset + 1 else offset) = offset := by simp [hw, ht]
      simp only [demuxLoop, commitResultsSpec, hoff, hc]
      rw [List.get?_eq_getElem?, List.getElem?_eq_getElem hlt]
      have hrec := ih (i + 1) offset hrest (by omega)
      have harith : i + 1 + offset = i + offset + 1 := by omega
      rw [harith] at hrec
      rw [hrec]
      simp only [Option.map_some', Option.some.injEq, List.cons.injEq]
      constructor
      · have hdx : i + offset + 1 - 1 = i + offset := by omega
        rw [hdx, List.getD_eq_getElem?_getD, List.getElem?_eq_getElem hlt]
        rfl
      · trivial
    · -- neither present: excluded by the batch invariant
      rw [hw, ht] at hop
      simp at hop

theorem commitResultsSpec_length (results : List (Option Int)) (ct : Int) :
    ∀ (ops : List WriteOp) (base : Nat),
      (commitResultsSpec results ct ops base).length = ops.length := by
  intro ops
  induction ops with
  | nil => intro base; rfl
  | cons op rest ih =>
    intro base
    simp only [commitResultsSpec, List.length_cons, ih]

/-- **C1**: for every committed batch whose commit RPC succeeds (the
server returned one result per wire entry), the response handler returns
exactly one `WriteResult` per logical operation, in append order; the
result timestamp is taken from the operation's last wire entry — the
transform entry, when the operation sent both a write and a transform
(third conjunct: the transform is the last wire entry) — falling back to
the batch-wide commit time when the server reported no update time for
that entry. -/
theorem commit_results_one_per_operation (ops : List WriteOp)
    (reqW : List WriteProto) (hbuild : buildCommitWrites ops = some reqW)
    (rs : List (Option Int)) (ct : Int) (hlen : rs.length = reqW.length) :
    processCommitResponse ops reqW { commitTime := ct, writeResults := some rs } =
        some (commitResultsSpec rs ct ops 0) ∧
      (commitResultsSpec rs ct ops 0).length = ops.length ∧
      (∀ (op : WriteOp) (w t : WriteProto), op.write = some w →
        op.transform = some t → ∃ w', opWireList op = [w', t]) := by
  have hops := buildCommitWrites_entries hbuild
  have hlen2 : reqW.length = totalWireCount ops := buildCommitWrites_length hbuild
  refine ⟨?_, commitResultsSpec_length rs ct ops 0, ?_⟩
  · cases ops with
    | nil =>
      have hreq : reqW = [] := by
        have h2 : some ([] : List WriteProto) = some reqW := hbuild
        cases h2
        rfl
      subst hreq
      rfl
    | cons o os =>
      have hpos : 0 < reqW.length := by
        have h1 := opWireCount_pos (hops o (List.mem_cons_self o os))
        have h2 : totalWireCount (o :: os) = opWireCount o + totalWireCount os := rfl
        omega
      have hdemux := demuxLoop_eq_spec rs ct (o :: os) 0 0 hops
        (by rw [← hlen2, ← hlen]; omega)
      simp only [processCommitResponse, hlen, if_pos hpos, if_pos rfl]
      exact hdemux
  · intro op w t hw ht
    cases hp : op.precondition with
    | some pc =>
      exact ⟨{ w with currentDocument := some pc },
        by simp [opWireList, attachPrecondition, hp, hw, ht]⟩
    | none =>
      exact ⟨w, by simp [opWireList, attachPrecondition, hp, hw, ht]⟩

/-- A queued operation with both a write and a transform entry. -/
def sampleOpBoth : WriteOp :=
  { write := some { updateName := some "d1" },
    transform := some { updateName := some "d1", fieldTransforms := some [["a"]] },
    precondition := some (PrecondProto.existsP false) }

/-- A queued operation with a single (delete) write entry. -/
def sampleOpSingle : WriteOp :=
  { write := some { deleteName := some "d2" } }

/-- Witness for C1: a two-operation batch (a both-entry operation then a
single-entry one) against a flat result list `[1, 2, ⊥]` with commit time
`99` resolves to `[2, 99]` — the transform's time for the first
operation, the commit-time fallback for the second. -/
theorem commit_results_one_per_operation_witness :
    processCommitResponse [sampleOpBoth, sampleOpSingle]
        ((buildCommitWrites [sampleOpBoth, sampleOpSingle]).getD [])
        { commitTime := 99, writeResults := some [some 1, some 2, none] } =
      some [2, 99] := by
  have h := commit_results_one_per_operation [sampleOpBoth, sampleOpSingle]
    ((buildCommitWrites [sampleOpBoth, sampleOpSingle]).getD [])
    rfl [some 1, some 2, none] 99 rfl
  rw [h.1]
  rfl

/-! ### The idle-transaction heuristic (C3) -/

theorem shouldCreateTransaction_iff (env : CommitEnv) :
    shouldCreateTransaction env = true ↔
      env.preferTransactions = true ∧
        (env.lastSuccessfulRequest = none ∨
          ∃ t, env.lastSuccessfulRequest = some t ∧ env.now - t > 110000) := by
  have h110 : GCF_IDLE_TIMEOUT_MS = (110000 : Int) := by norm_num [GCF_IDLE_TIMEOUT_MS]
  unfold shouldCreateTransaction
  cases hp : env.preferTransactions
  · simp
  · cases hl : env.lastSuccessfulRequest with
    | none => simp
    | some t => simp [h110]

/-- **C3**: for every `commit()` invocation without an explicit
transaction id, a `beginTransaction` RPC is issued — and issued first,
before the commit RPC — if and only if transaction-preference is enabled
and either no prior successful request timestamp exists or the elapsed
time since it strictly exceeds 110000 ms; otherwise the commit RPC is
issued directly (the call sequence does not start with
`beginTransaction`). -/
theorem commit_begins_transaction_iff (b : WriteBatch) (db : String)
    (env : CommitEnv) (txId : List Nat) :
    (RpcCall.beginTransaction ∈ (commit_ b db none env txId).1 ↔
      env.preferTransactions = true ∧
        (env.lastSuccessfulRequest = none ∨
          ∃ t, env.lastSuccessfulRequest = some t ∧ env.now - t > 110000)) ∧
    ((commit_ b db none env txId).1.head? = some RpcCall.beginTransaction ↔
      shouldCreateTransaction env = true) := by
  rw [← shouldCreateTransaction_iff]
  unfold commit_
  cases hs : shouldCreateTransaction env
  · simp only [Option.isNone_none, Bool.true_and, Bool.false_eq_true, if_false]
    cases hb : buildCommitWrites b.writes <;> simp
  · simp only [Option.isNone_none, Bool.true_and, if_true]
    cases hb : buildCommitWrites b.writes <;> simp

/-! ### Empty batch commit (C8) -/

/-- **C8**: committing a batch with zero appended operations still issues
a commit RPC whose `writes` array is empty, and the response handler
resolves to an empty result list for every response — in particular
without inspecting the `writeResults` field (the result is the same for
any value of it, even an absent one). -/
theorem commit_empty_batch (committed : Bool) (db : String)
    (explicitTx : Option (List Nat)) (env : CommitEnv) (txId : List Nat)
    (ct : Int) (wr : Option (List (Option Int))) :
    (∃ req : CommitRequest,
        RpcCall.commit req ∈
          (commit_ { writes := [], committed := committed } db explicitTx env txId).1 ∧
        req.writes = []) ∧
      processCommitResponse [] [] { commitTime := ct, writeResults := wr } = some [] := by
  constructor
  · unfold commit_
    by_cases hcond : (explicitTx.isNone && shouldCreateTransaction env) = true
    · rw [if_pos hcond]
      exact ⟨{ database := db, writes := [], transaction := some txId },
        by simp [buildCommitWrites], rfl⟩
    · rw [if_neg hcond]
      exact ⟨{ database := db, writes := [], transaction := explicitTx },
        by simp [buildCommitWrites], rfl⟩
  · rfl

/-! ### What `create` queues (C2) -/

/-- Counterexample to C2 as stated: a `create` whose data consists only
of a transform sentinel passes validation and queues an operation with
**no** write entry (only the transform, which then carries the
precondition at flattening time) — the claim that `create` always emits
a write entry fails here. -/
theorem create_transform_only_queues_no_write :
    (WriteBatch.create { } (FireValue.docRefV "doc")
        (FireValue.obj [("a", FireValue.serverTimestamp)])).1 = Except.ok () ∧
    (WriteBatch.create { } (FireValue.docRefV "doc")
        (FireValue.obj [("a", FireValue.serverTimestamp)])).2.writes =
      [{ write := none,
         transform := some { updateName := some "doc", fieldTransforms := some [["a"]] },
         precondition := some (PrecondProto.existsP false) }] :=
  ⟨rfl, rfl⟩

/-- **C2 (amended)**: for every `create(ref, data)` that passes
validation, the queued operation carries the `exists: false` precondition
and a transform entry exactly when the data contains transform sentinels;
it contains a write entry iff the plain-value snapshot is non-empty or
the data has no transforms — in particular, a create whose data consists
only of transform sentinels emits no write entry (the transform entry
alone represents it), while a create with empty data emits an empty write
entry. -/
theorem create_queued_entries (b : WriteBatch) (documentRef data : FireValue)
    (b' : WriteBatch)
    (h : WriteBatch.create b documentRef data = (Except.ok (), b')) :
    ∃ op : WriteOp, b'.writes = b.writes ++ [op] ∧
      op.precondition = some (PrecondProto.existsP false) ∧
      (op.transform.isSome ↔ transformPathsOfFields [] (objFields data) ≠ []) ∧
      (op.write.isSome ↔
        (snapFields (objFields data) ≠ [] ∨
          transformPathsOfFields [] (objFields data) = [])) := by
  unfold WriteBatch.create at h
  cases h1 : validateDocumentReference documentRef with
  | error e => rw [h1] at h; exact absurd h (by simp)
  | ok u =>
    rw [h1] at h
    cases h2 : validateDocumentData data false with
    | error e => rw [h2] at h; exact absurd h (by simp)
    | ok u2 =>
      rw [h2] at h
      by_cases hc : b.committed
      · rw [if_pos hc] at h
        exact absurd h (by simp)
      · rw [if_neg hc] at h
        have hb' : b' =
            { b with writes := b.writes ++
              [{ write := if !(snapFields (objFields data)).isEmpty ||
                    (transformPathsOfFields [] (objFields data)).isEmpty then
                  some { updateName := some (refName documentRef),
                         fields := some (snapFields (objFields data)) }
                else none,
                 transform := if (transformPathsOfFields [] (objFields data)).isEmpty then none
                  else some { updateName := some (refName documentRef),
                              fieldTransforms := some (transformPathsOfFields [] (objFields data)) },
                 precondition := some (PrecondProto.existsP false) }] } :=
          (congrArg Prod.snd h).symm
        refine ⟨_, congrArg WriteBatch.writes hb', rfl, ?_, ?_⟩
        · by_cases ht : (transformPathsOfFields [] (objFields data)).isEmpty = true
          · rw [List.isEmpty_iff] at ht
            simp [ht]
          · rw [Bool.not_eq_true, List.isEmpty_eq_false_iff_exists_mem] at ht
            obtain ⟨x, hx⟩ := ht
            have hne : transformPathsOfFields [] (objFields data) ≠ [] := by
              intro hnil; rw [hnil] at hx; exact absurd hx (List.not_mem_nil x)
            have htf : (transformPathsOfFields [] (objFields data)).isEmpty = false := by
              rw [List.isEmpty_eq_false_iff_exists_mem]; exact ⟨x, hx⟩
            simp [htf, hne]
        · by_cases hs : (snapFields (objFields data)).isEmpty = true <;>
            by_cases ht : (transformPathsOfFields [] (objFields data)).isEmpty = true <;>
              simp_all [List.isEmpty_iff, List.isEmpty_eq_false]

/-- Witness for the amended C2: a `create` with one plain field and one
transform field queues an operation with both entries present and the
`exists:false` precondition. -/
theorem create_queued_entries_witness :
    ∃ op : WriteOp,
      ((WriteBatch.create { } (FireValue.docRefV "doc")
          (FireValue.obj [("a", FireValue.prim (Prim.intV 1)),
                          ("b", FireValue.serverTimestamp)])).2).writes = [] ++ [op] ∧
        op.precondition = some (PrecondProto.existsP false) ∧
        (op.transform.isSome ↔
          transformPathsOfFields []
            (objFields (FireValue.obj [("a", FireValue.prim (Prim.intV 1)),
                                       ("b", FireValue.serverTimestamp)])) ≠ []) ∧
        (op.write.isSome ↔
          (snapFields (objFields (FireValue.obj [("a", FireValue.prim (Prim.intV 1)),
                                                 ("b", FireValue.serverTimestamp)])) ≠ [] ∨
            transformPathsOfFields []
              (objFields (FireValue.obj [("a", FireValue.prim (Prim.intV 1)),
                                         ("b", FireValue.serverTimestamp)])) = [])) :=
  create_queued_entries { } (FireValue.docRefV "doc")
    (FireValue.obj [("a", FireValue.prim (Prim.intV 1)),
                    ("b", FireValue.serverTimestamp)]) _ rfl

/-! ### The committed flag (C4) -/

/-- **C4**: the committed flag transitions `false → true` exactly once —
public appends never change it (conjuncts 5–8), only `commit_` sets it,
and `commit_` sets it without consulting the commit RPC's outcome
(conjunct 9, which holds for every response); once the flag is `true`,
every public append whose arguments were otherwise valid (it would
succeed on the uncommitted batch) fails with the state error (conjuncts
1–4); and `commit_` performs no committed check — its RPC behaviour is
identical whatever the flag's value (conjunct 10). -/
theorem committed_flag_lifecycle :
    (∀ (b : WriteBatch) (ref data : FireValue) (r : WriteBatch),
        WriteBatch.create { b with committed := false } ref data = (Except.ok (), r) →
        (WriteBatch.create { b with committed := true } ref data).1 =
          Except.error VErr.stateError) ∧
    (∀ (b : WriteBatch) (ref : FireValue) (pc : Option FireValue) (r : WriteBatch),
        WriteBatch.delete { b with committed := false } ref pc = (Except.ok (), r) →
        (WriteBatch.delete { b with committed := true } ref pc).1 =
          Except.error VErr.stateError) ∧
    (∀ (b : WriteBatch) (ref data : FireValue) (opts : Option FireValue) (r : WriteBatch),
        WriteBatch.set { b with committed := false } ref data opts = (Except.ok (), r) →
        (WriteBatch.set { b with committed := true } ref data opts).1 =
          Except.error VErr.stateError) ∧
    (∀ (b : WriteBatch) (ref : FireValue) (rest : List FireValue) (r : WriteBatch),
        WriteBatch.update { b with committed := false } ref rest = (Except.ok (), r) →
        (WriteBatch.update { b with committed := true } ref rest).1 =
          Except.error VErr.stateError) ∧
    (∀ (b : WriteBatch) (ref data : FireValue),
        ((WriteBatch.create b ref data).2).committed = b.committed) ∧
    (∀ (b : WriteBatch) (ref : FireValue) (pc : Option FireValue),
        ((WriteBatch.delete b ref pc).2).committed = b.committed) ∧
    (∀ (b : WriteBatch) (ref data : FireValue) (opts : Option FireValue),
        ((WriteBatch.set b ref data opts).2).committed = b.committed) ∧
    (∀ (b : WriteBatch) (ref : FireValue) (rest : List FireValue),
        ((WriteBatch.update b ref rest).2).committed = b.committed) ∧
    (∀ (b : WriteBatch) (db : String) (tx : Option (List Nat)) (env : CommitEnv)
        (txId : List Nat) (b' : WriteBatch),
        (commit_ b db tx env txId).2 = some b' → b'.committed = true) ∧
    (∀ (b : WriteBatch) (db : String) (tx : Option (List Nat)) (env : CommitEnv)
        (txId : List Nat) (c c' : Bool),
        (commit_ { b with committed := c } db tx env txId).1 =
          (commit_ { b with committed := c' } db tx env txId).1) := by
  refine ⟨?_, ?_, ?_, ?_, ?_, ?_, ?_, ?_, ?_, ?_⟩
  · -- create after commit: state error
    intro b ref data r h
    simp only [WriteBatch.create] at h ⊢
    split at h
    · exact absurd h (by simp)
    · split at h
      · exact absurd h (by simp)
      · simp
  · -- delete after commit: state error
    intro b ref pc r h
    simp only [WriteBatch.delete] at h ⊢
    split at h
    · exact absurd h (by simp)
    · split at h
      · exact absurd h (by simp)
      · simp
  · -- set after commit: state error
    intro b ref data opts r h
    simp only [WriteBatch.set] at h ⊢
    split at h
    · exact absurd h (by simp)
    · split at h
      · exact absurd h (by simp)
      · split at h
        · exact absurd h (by simp)
        · simp
  · -- update after commit: state error
    intro b ref rest r h
    cases rest with
    | nil =>
      simp only [WriteBatch.update] at h
      exact absurd h (by simp)
    | cons d pvs =>
      simp only [WriteBatch.update] at h ⊢
      split at h
      · exact absurd h (by simp)
      · simp
  · -- create preserves the flag
    intro b ref data
    simp only [WriteBatch.create]
    split
    · rfl
    · split
      · rfl
      · cases hc : b.committed <;> simp [hc]
  · -- delete preserves the flag
    intro b ref pc
    simp only [WriteBatch.delete]
    split
    · rfl
    · split
      · rfl
      · cases hc : b.committed <;> simp [hc]
  · -- set preserves the flag
    intro b ref data opts
    simp only [WriteBatch.set]
    split
    · rfl
    · split
      · rfl
      · split
        · rfl
        · cases hc : b.committed <;> simp [hc]
  · -- update preserves the flag
    intro b ref rest
    cases rest with
    | nil => rfl
    | cons d pvs =>
      simp only [WriteBatch.update]
      split
      · rfl
      · cases hc : b.committed
        · simp only [hc, Bool.false_eq_true, if_false]
          split
          · simp [hc]
          · split
            · simp [hc]
            · simp [hc]
        · simp [hc]
  · -- commit_ sets the flag whenever it returns a batch
    intro b db tx env txId b' h
    unfold commit_ at h
    split at h
    · split at h
      · simp only [Option.some.injEq] at h
        rw [← h]
      · exact absurd h (by simp)
    · split at h
      · simp only [Option.some.injEq] at h
        rw [← h]
      · exact absurd h (by simp)
  · -- commit_ reads only the write list, never the committed flag
    intro b db tx env txId c c'
    unfold commit_
    by_cases hcond : (tx.isNone && shouldCreateTransaction env) = true
    · rw [if_pos hcond]
    · rw [if_neg hcond]

/-- Witness for C4: a `create` that succeeds on a fresh batch fails with
the state error on the committed variant of the same batch. -/
theorem committed_flag_lifecycle_witness :
    (WriteBatch.create { writes := [], committed := true }
        (FireValue.docRefV "doc")
        (FireValue.obj [("a", FireValue.prim (Prim.intV 1))])).1 =
      Except.error VErr.stateError :=
  committed_flag_lifecycle.1 { writes := [] } (FireValue.docRefV "doc")
    (FireValue.obj [("a", FireValue.prim (Prim.intV 1))]) _ rfl

/-! ### Failed appends leave the batch untouched (C7) -/

/-- **C7**: for every append operation (`create`, `delete`, `set`,
`update`), if the operation raises an error, the batch state is
unchanged — no entry is added to the write list and the committed flag is
untouched (the whole state is returned as it was); a batch never holds a
partially-validated operation. -/
theorem append_error_leaves_batch_unchanged :
    (∀ (b : WriteBatch) (ref data : FireValue) (e : VErr) (b2 : WriteBatch),
        WriteBatch.create b ref data = (Except.error e, b2) → b2 = b) ∧
    (∀ (b : WriteBatch) (ref : FireValue) (pc : Option FireValue) (e : VErr)
        (b2 : WriteBatch),
        WriteBatch.delete b ref pc = (Except.error e, b2) → b2 = b) ∧
    (∀ (b : WriteBatch) (ref data : FireValue) (opts : Option FireValue) (e : VErr)
        (b2 : WriteBatch),
        WriteBatch.set b ref data opts = (Except.error e, b2) → b2 = b) ∧
    (∀ (b : WriteBatch) (ref : FireValue) (rest : List FireValue) (e : VErr)
        (b2 : WriteBatch),
        WriteBatch.update b ref rest = (Except.error e, b2) → b2 = b) := by
  refine ⟨?_, ?_, ?_, ?_⟩
  · intro b ref data e b2 h
    simp only [WriteBatch.create] at h
    split at h
    · exact (congrArg Prod.snd h).symm
    · split at h
      · exact (congrArg Prod.snd h).symm
      · split at h
        · exact (congrArg Prod.snd h).symm
        · exact absurd (congrArg Prod.fst h) (by simp)
  · intro b ref pc e b2 h
    simp only [WriteBatch.delete] at h
    split at h
    · exact (congrArg Prod.snd h).symm
    · split at h
      · exact (congrArg Prod.snd h).symm
      · split at h
        · exact (congrArg Prod.snd h).symm
        · exact absurd (congrArg Prod.fst h) (by simp)
  · intro b ref data opts e b2 h
    simp only [WriteBatch.set] at h
    split at h
    · exact (congrArg Prod.snd h).symm
    · split at h
      · exact (congrArg Prod.snd h).symm
      · split at h
        · exact (congrArg Prod.snd h).symm
        · split at h
          · exact (congrArg Prod.snd h).symm
          · exact absurd (congrArg Prod.fst h) (by simp)
  · intro b ref rest e b2 h
    cases rest with
    | nil =>
      simp only [WriteBatch.update] at h
      exact (congrArg Prod.snd h).symm
    | cons d pvs =>
      simp only [WriteBatch.update] at h
      split at h
      · exact (congrArg Prod.snd h).symm
      · split at h
        · exact (congrArg Prod.snd h).symm
        · split at h
          · exact (congrArg Prod.snd h).symm
          · split at h
            · exact (congrArg Prod.snd h).symm
            · exact absurd (congrArg Prod.fst h) (by simp)

/-- Witness for C7: a `create` whose data carries a delete sentinel
(disallowed in full-replace mode) fails and leaves the fresh batch
exactly as it was. -/
theorem append_error_leaves_batch_unchanged_witness :
    (WriteBatch.create { writes := [], committed := false }
        (FireValue.docRefV "doc")
        (FireValue.obj [("a", FireValue.deleteSentinel)])).2 =
      { writes := [], committed := false } :=
  append_error_leaves_batch_unchanged.1 { writes := [] } (FireValue.docRefV "doc")
    (FireValue.obj [("a", FireValue.deleteSentinel)])
    (VErr.invalidArgument "FieldValue.delete() cannot be used here") _ rfl

/-! ## The validation layer (`validate.ts` and its duplicated copy)

These validators operate on arbitrary JavaScript values, modelled by a
separate universe `JSVal`.  JavaScript numbers are a tagged type
distinguishing `NaN`, the two infinities, and finite values (represented
exactly as rationals, comparisons being all the embedded code performs). -/

inductive JSNumber
  | nan
  | inf
  | negInf
  | finite (q : ℚ)
deriving DecidableEq

/-- JavaScript `<` on numbers; any comparison involving NaN is false. -/
def jsLt : JSNumber → JSNumber → Bool
  | .nan, _ => false
  | _, .nan => false
  | .negInf, .negInf => false
  | .negInf, _ => true
  | _, .negInf => false
  | .inf, _ => false
  | .finite _, .inf => true
  | .finite a, .finite b => decide (a < b)

inductive JSVal
  | undefinedV
  | nullV
  | boolV (b : Bool)
  | numV (n : JSNumber)
  | strV (s : String)
  | funcV
  | arrV (elems : List JSVal)
  | pathV (segs : List String)
  | docRefJ (name : String)
  | objV (ctor : String) (props : List (String × JSVal))

/-- JavaScript `typeof`. -/
def typeofJs : JSVal → String
  | .undefinedV => "undefined"
  | .nullV => "object"
  | .boolV _ => "boolean"
  | .numV _ => "number"
  | .strV _ => "string"
  | .funcV => "function"
  | _ => "object"

def isNullJs : JSVal → Bool
  | .nullV => true
  | _ => false

/-- `val.constructor.name` for object values (`Array` for arrays, the
class name for domain instances, the declared constructor for other
objects — `"Object"` for plain literals). -/
def ctorNameJs : JSVal → String
  | .arrV _ => "Array"
  | .pathV _ => "FieldPath"
  | .docRefJ _ => "DocumentReference"
  | .objV c _ => c
  | _ => ""

/-- Model of the external `is` npm library's `is.object`:
`Object.prototype.toString.call(value) === '[object Object]'`.  This is
true for plain object literals and for ordinary class instances (whose
toString tag is `[object Object]`), and false for `null`, arrays
(`[object Array]`), functions (`[object Function]`) and boxed
primitives. -/
def jsIsObject : JSVal → Bool
  | .pathV _ => true
  | .docRefJ _ => true
  | .objV _ _ => true
  | _ => false

/-! ### validateNumber (both copies are textually equivalent here — the
`dev` copy uses `is.nan`, the other the global `isNaN`, both reached only
when `typeof value === 'number'`; both copies default `max` to
`-Infinity`) -/

structure NumOptions where
  optional : Bool := false
  minValue : Option JSNumber := none
  maxValue : Option JSNumber := none

/-- `value === undefined && options !== undefined && options.optional === true`. -/
def numOptionalSkip (value : JSVal) (options : Option NumOptions) : Bool :=
  match value, options with
  | .undefinedV, some o => o.optional
  | _, _ => false

/-- `validateNumber` (`validate.ts` lines 111–131 and its copy): note the
source defaults `max` to `-Infinity` (where `validateInteger` right below
uses `Infinity`). -/
def validateNumber (value : JSVal) (options : Option NumOptions) : Except VErr Unit :=
  let min := match options with
    | some o => o.minValue.getD JSNumber.negInf
    | none => JSNumber.negInf
  let max := match options with
    | some o => o.maxValue.getD JSNumber.negInf
    | none => JSNumber.negInf
  if numOptionalSkip value options then Except.ok ()
  else
    match value with
    | .numV n =>
      if n = JSNumber.nan then
        Except.error (VErr.invalidArgument "is not a valid number")
      else if jsLt n min || jsLt max n then
        Except.error (VErr.invalidArgument "must be within the inclusive bounds")
      else Except.ok ()
    | _ => Except.error (VErr.invalidArgument "is not a valid number")

/-! ### validateObject, in both copies -/

structure ObjOptions where
  optional : Bool := false

def objOptionalSkip (value : JSVal) (options : Option ObjOptions) : Bool :=
  match value, options with
  | .undefinedV, some o => o.optional
  | _, _ => false

/-- `validateObject` from `src/dev/src/validate.ts`: rejects any
non-object (`!is.object(value)`). -/
def validateObjectDev (value : JSVal) (options : Option ObjOptions) : Except VErr Unit :=
  if objOptionalSkip value options then Except.ok ()
  else if jsIsObject value then Except.ok ()
  else Except.error (VErr.invalidArgument "is not a valid object")

/-- `validateObject` from `src/unnamed/part_000`: its guard is
`typeof value !== 'object' && value === null` — kept verbatim. -/
def validateObjectP0 (value : JSVal) (options : Option ObjOptions) : Except VErr Unit :=
  if objOptionalSkip value options then Except.ok ()
  else if typeofJs value != "object" && isNullJs value then
    Except.error (VErr.invalidArgument "is not a valid object")
  else Except.ok ()

/-! ### customObjectMessage, in both copies

The four message templates are modelled as a message class. -/

inductive MsgClass
  | domainTypeMismatch (typeName : String)
  | customPrototype (typeName : String)
  | notPlainObject
  | invalidUseOfType (typeofName : String)
deriving DecidableEq

def recognizedDomainType (t : String) : Bool :=
  t == "DocumentReference" || t == "FieldPath" || t == "FieldValue" ||
    t == "GeoPoint" || t == "Timestamp"

/-- `customObjectMessage` from `src/dev/src/validate.ts`: objects with a
non-`Object` constructor go through the domain-type switch; non-objects
get the "not a plain JavaScript object" message; the remaining (plain)
objects get the "invalid use of type" message. -/
def customObjectMessageDev (val : JSVal) : MsgClass :=
  if jsIsObject val && ctorNameJs val != "Object" then
    if recognizedDomainType (ctorNameJs val) then
      MsgClass.domainTypeMismatch (ctorNameJs val)
    else MsgClass.customPrototype (ctorNameJs val)
  else if !jsIsObject val then MsgClass.notPlainObject
  else MsgClass.invalidUseOfType (typeofJs val)

/-- `customObjectMessage` from `src/unnamed/part_000`: every non-null
object — the constructor-name guard is absent, so plain objects included —
goes through the domain-type switch; everything else gets the "invalid
use of type" message. -/
def customObjectMessageP0 (val : JSVal) : MsgClass :=
  if typeofJs val == "object" && !isNullJs val then
    if recognizedDomainType (ctorNameJs val) then
      MsgClass.domainTypeMismatch (ctorNameJs val)
    else MsgClass.customPrototype (ctorNameJs val)
  else MsgClass.invalidUseOfType (typeofJs val)

/-! ### `src/unnamed/part_001`: read options and getAll argument parsing -/

/-- `Modelled from the spec:` `serializer.isPlainObject` on arbitrary
JavaScript values — an object literal with the plain `Object` prototype. -/
def isPlainObjectJs : JSVal → Bool
  | .objV "Object" _ => true
  | _ => false

def lookupJs : List (String × JSVal) → String → JSVal
  | [], _ => .undefinedV
  | (k', v) :: rest, k => if k' = k then v else lookupJs rest k

/-- Property access; absent properties and non-object receivers yield
`undefined`. -/
def getPropJs : JSVal → String → JSVal
  | .objV _ props, k => lookupJs props k
  | _, _ => .undefinedV

/-- `Modelled from the spec:` `validateFieldPath` (`path.ts`) on
arbitrary values — a valid dotted string or a `FieldPath` instance. -/
def validateFieldPathJs (v : JSVal) : Except VErr Unit :=
  match v with
  | .strV s =>
    if isValidDottedPath s then Except.ok ()
    else Except.error (VErr.invalidArgument "is not a valid field path string")
  | .pathV _ => Except.ok ()
  | _ => Except.error (VErr.invalidArgument "is not a valid field path")

def validateFieldMaskElems : List JSVal → Except VErr Unit
  | [] => Except.ok ()
  | e :: rest =>
    match validateFieldPathJs e with
    | Except.error _ =>
      Except.error (VErr.invalidArgument "read option: fieldMask is not valid")
    | Except.ok _ => validateFieldMaskElems rest

/-- `validateReadOptions` (`part_001` lines 111–139): note the source's
`if (options.fieldMask === undefined) { }` has an empty body, so the
array check runs unconditionally. -/
def validateReadOptions (val : Option JSVal) : Except VErr Unit :=
  match val with
  | none => Except.ok ()
  | some v =>
    if typeofJs v != "object" && isNullJs v then
      Except.error (VErr.invalidArgument "read option: Input is not an object.")
    else
      match getPropJs v "fieldMask" with
      | .arrV elems => validateFieldMaskElems elems
      | _ => Except.error (VErr.invalidArgument "read option: fieldMask is not an array.")

/-- `Modelled from the spec:` `FieldPath.fromArgument` on arbitrary
values. -/
def fieldPathFromArgumentJs : JSVal → FieldPath
  | .strV s => parseDottedPath s
  | .pathV segs => segs
  | _ => []

/-- `Modelled from the spec:` `validateDocumentReference`
(`reference.ts`) on arbitrary values. -/
def validateDocumentReferenceJs (v : JSVal) : Except VErr Unit :=
  match v with
  | .docRefJ _ => Except.ok ()
  | _ => Except.error (VErr.invalidArgument "is not a valid DocumentReference")

def validateDocRefList : List JSVal → Except VErr Unit
  | [] => Except.ok ()
  | d :: rest =>
    match validateDocumentReferenceJs d with
    | Except.error e => Except.error e
    | Except.ok _ => validateDocRefList rest

/-- `Array.isArray(documentRefsOrReadOptions[0])`. -/
def headIsArray (args : List JSVal) : Bool :=
  match args.head? with
  | some (.arrV _) => true
  | _ => false

/-- `parseGetAllArguments` (`part_001` lines 61–99). -/
def parseGetAllArguments (args : List JSVal) :
    Except VErr (List JSVal × Option (List FieldPath)) :=
  let pair : List JSVal × Option JSVal :=
    if headIsArray args then
      (match args.head? with
       | some (.arrV ds) => ds
       | _ => [],
       match args.get? 1 with
       | some .undefinedV => none
       | some v => some v
       | none => none)
    else
      match args.getLast? with
      | some last =>
        if isPlainObjectJs last then (args.dropLast, some last)
        else (args, none)
      | none => (args, none)
  match validateDocRefList pair.1 with
  | Except.error e => Except.error e
  | Except.ok _ =>
    match validateReadOptions pair.2 with
    | Except.error e => Except.error e
    | Except.ok _ =>
      let fieldMask : Option (List FieldPath) :=
        match pair.2 with
        | some ro =>
          match getPropJs ro "fieldMask" with
          | .arrV elems => some (elems.map fieldPathFromArgumentJs)
          | _ => none
        | none => none
      Except.ok (pair.1, fieldMask)

/-! ### validateNumber (C6) -/

/-- Counterexample to C6 as stated: the finite number `5` with no bounds
supplied is rejected by `validateNumber` (the claim says every finite
number is accepted when no bounds are supplied), because the source
defaults `max` to `-Infinity`. -/
theorem validateNumber_rejects_finite_without_bounds :
    isError (validateNumber (JSVal.numV (JSNumber.finite 5)) none) = true := by
  decide

/-- **C6 (amended)**: `NaN` and non-number values are rejected by the
type check before any range check, but the infinities are not — they
reach the range comparison; the range uses `min` defaulting to
`-Infinity` and `max` defaulting to `-Infinity` when not supplied, so
with no options the only accepted value is `-Infinity` itself (conjunct
1); with finite bounds supplied, a finite number is accepted exactly when
it lies within the inclusive `[minValue, maxValue]` interval (conjunct
2); `NaN` is always rejected (conjunct 3). -/
theorem validateNumber_actual_behaviour :
    (∀ v : JSVal, validateNumber v none = Except.ok () ↔
        v = JSVal.numV JSNumber.negInf) ∧
    (∀ (q mn mx : ℚ),
        validateNumber (JSVal.numV (JSNumber.finite q))
            (some { minValue := some (JSNumber.finite mn),
                    maxValue := some (JSNumber.finite mx) }) = Except.ok () ↔
          mn ≤ q ∧ q ≤ mx) ∧
    (∀ options : Option NumOptions,
        isError (validateNumber (JSVal.numV JSNumber.nan) options) = true) := by
  refine ⟨?_, ?_, ?_⟩
  · intro v
    cases v <;> simp [validateNumber, numOptionalSkip, jsLt]
    rename_i n
    cases n <;> simp [jsLt]
  · intro q mn mx
    simp only [validateNumber, numOptionalSkip, Option.getD_some]
    constructor
    · intro h
      by_cases h1 : jsLt (JSNumber.finite q) (JSNumber.finite mn) ||
          jsLt (JSNumber.finite mx) (JSNumber.finite q)
      · rw [if_neg (by simp), if_pos h1] at h
        exact absurd h (by simp)
      · rw [Bool.or_eq_true] at h1
        push_neg at h1
        simp only [jsLt, decide_eq_true_eq] at h1
        constructor
        · exact le_of_not_lt (fun hlt => h1.1 (by simpa using hlt))
        · exact le_of_not_lt (fun hlt => h1.2 (by simpa using hlt))
    · rintro ⟨h1, h2⟩
      rw [if_neg (by simp)]
      have : (jsLt (JSNumber.finite q) (JSNumber.finite mn) ||
          jsLt (JSNumber.finite mx) (JSNumber.finite q)) = false := by
        simp [jsLt]
        exact ⟨h1, h2⟩
      simp [this]
  · intro options
    cases options with
    | none => rfl
    | some o => rfl

/-! ### The two copies of the object validators (C9) -/

/-- Counterexample to C9: at the string value `"foo"` (with no options),
the `dev` copy of `validateObject` raises while the `part_000` copy does
not — the two copies are not behaviorally equivalent. -/
theorem validateObject_copies_disagree :
    isError (validateObjectDev (JSVal.strV "foo") none) = true ∧
    isError (validateObjectP0 (JSVal.strV "foo") none) = false := by
  exact ⟨rfl, rfl⟩

/-- **C9 (amended)**: the two copies of the validation layer are *not*
behaviorally equivalent.  The `part_000` copy of `validateObject` never
raises (its guard `typeof value !== 'object' && value === null` is
unsatisfiable — conjunct 1), while the `dev` copy raises exactly for
non-optional values failing `is.object` — the `[object Object]` toString
check, so arrays included (conjunct 2); the copies therefore disagree on
every such input.  The two `customObjectMessage` copies agree on
`is.object` values whose constructor name is not `Object` — i.e. domain
or custom-prototype instances (conjunct 3) — but classify a plain object
differently — invalid-use-of-type vs. custom-prototype (conjunct 4);
every value failing `is.object` gets `dev`'s "not a plain JavaScript
object" message (conjunct 5); an array — failing `is.object` but of
`typeof 'object'` — is classified not-a-plain-object by `dev` and
custom-prototype `"Array"` by `part_000` (conjunct 6); and a value that
is not of `typeof 'object'`, or is `null`, gets `part_000`'s
invalid-use-of-type message (conjunct 7). -/
theorem validation_copies_divergence :
    (∀ (v : JSVal) (opts : Option ObjOptions),
        validateObjectP0 v opts = Except.ok ()) ∧
    (∀ (v : JSVal) (opts : Option ObjOptions),
        isError (validateObjectDev v opts) = true ↔
          (objOptionalSkip v opts = false ∧ jsIsObject v = false)) ∧
    (∀ v : JSVal, jsIsObject v = true → ctorNameJs v ≠ "Object" →
        customObjectMessageDev v = customObjectMessageP0 v) ∧
    (customObjectMessageDev (JSVal.objV "Object" []) =
        MsgClass.invalidUseOfType "object" ∧
      customObjectMessageP0 (JSVal.objV "Object" []) =
        MsgClass.customPrototype "Object") ∧
    (∀ v : JSVal, jsIsObject v = false →
        customObjectMessageDev v = MsgClass.notPlainObject) ∧
    (∀ elems : List JSVal,
        customObjectMessageDev (JSVal.arrV elems) = MsgClass.notPlainObject ∧
        customObjectMessageP0 (JSVal.arrV elems) = MsgClass.customPrototype "Array") ∧
    (∀ v : JSVal, typeofJs v ≠ "object" ∨ v = JSVal.nullV →
        customObjectMessageP0 v = MsgClass.invalidUseOfType (typeofJs v)) := by
  refine ⟨?_, ?_, ?_, ⟨rfl, rfl⟩, ?_, ?_, ?_⟩
  · intro v opts
    cases v <;> cases opts <;>
      simp [validateObjectP0, objOptionalSkip, typeofJs, isNullJs]
  · intro v opts
    unfold validateObjectDev
    by_cases hskip : objOptionalSkip v opts = true
    · simp [hskip, isError]
    · rw [Bool.not_eq_true] at hskip
      rw [if_neg (by simp [hskip])]
      by_cases hobj : jsIsObject v = true
      · simp [hobj, isError, hskip]
      · rw [Bool.not_eq_true] at hobj
        simp [hobj, isError, hskip]
  · intro v hobj hctor
    cases v <;> simp_all [jsIsObject, ctorNameJs, typeofJs, isNullJs,
      customObjectMessageDev, customObjectMessageP0]
  · intro v hobj
    cases v <;> simp_all [jsIsObject, ctorNameJs, typeofJs, isNullJs,
      customObjectMessageDev, customObjectMessageP0]
  · intro elems
    exact ⟨rfl, rfl⟩
  · intro v hv
    cases v <;> simp_all [typeofJs, isNullJs, customObjectMessageP0]

/-- Witness for the amended C9: the two `customObjectMessage` copies
agree on a `FieldPath` instance (an object whose constructor name is not
`Object`). -/
theorem validation_copies_divergence_witness :
    customObjectMessageDev (JSVal.pathV ["x"]) =
      customObjectMessageP0 (JSVal.pathV ["x"]) :=
  validation_copies_divergence.2.2.1 (JSVal.pathV ["x"]) rfl (by decide)

/-! ### Read options require a fieldMask (C10) -/

theorem validateFieldMaskElems_ok : ∀ {elems : List JSVal},
    validateFieldMaskElems elems = Except.ok () →
    ∀ e ∈ elems, validateFieldPathJs e = Except.ok () := by
  intro elems
  induction elems with
  | nil => intro _ e he; exact absurd he (List.not_mem_nil e)
  | cons x rest ih =>
    intro h e he
    simp only [validateFieldMaskElems] at h
    rw [List.mem_cons] at he
    cases hx : validateFieldPathJs x with
    | error err => rw [hx] at h; exact absurd h (by simp)
    | ok u =>
      rw [hx] at h
      rcases he with rfl | he
      · exact hx
      · exact ih h e he

/-- The dead guard in `validateReadOptions` never fires: `null` has
`typeof` `'object'`. -/
theorem readOptions_guard_unsat (v : JSVal) :
    (typeofJs v != "object" && isNullJs v) = false := by
  cases v <;> rfl

/-- **C10**: for every defined options value, `validateReadOptions`
succeeds only when its `fieldMask` property is an array all of whose
elements are valid field paths (conjunct 1); an options value with no
`fieldMask` property at all is rejected with the "fieldMask is not an
array" error (conjunct 2); consequently `parseGetAllArguments` fails
whenever its trailing plain-object argument (in the non-deprecated call
shape) lacks a `fieldMask` (conjunct 3). -/
theorem readOptions_require_fieldMask :
    (∀ v : JSVal, validateReadOptions (some v) = Except.ok () →
        ∃ elems, getPropJs v "fieldMask" = JSVal.arrV elems ∧
          ∀ e ∈ elems, validateFieldPathJs e = Except.ok ()) ∧
    (∀ v : JSVal, getPropJs v "fieldMask" = JSVal.undefinedV →
        validateReadOptions (some v) =
          Except.error (VErr.invalidArgument "read option: fieldMask is not an array.")) ∧
    (∀ (args : List JSVal) (last : JSVal),
        args.getLast? = some last →
        headIsArray args = false →
        isPlainObjectJs last = true →
        getPropJs last "fieldMask" = JSVal.undefinedV →
        isError (parseGetAllArguments args) = true) := by
  refine ⟨?_, ?_, ?_⟩
  · intro v h
    simp only [validateReadOptions, readOptions_guard_unsat, Bool.false_eq_true,
      if_false] at h
    cases hm : getPropJs v "fieldMask" with
    | arrV elems =>
      rw [hm] at h
      exact ⟨elems, rfl, validateFieldMaskElems_ok h⟩
    | undefinedV => rw [hm] at h; exact absurd h (by simp)
    | nullV => rw [hm] at h; exact absurd h (by simp)
    | boolV b => rw [hm] at h; exact absurd h (by simp)
    | numV n => rw [hm] at h; exact absurd h (by simp)
    | strV s => rw [hm] at h; exact absurd h (by simp)
    | funcV => rw [hm] at h; exact absurd h (by simp)
    | pathV segs => rw [hm] at h; exact absurd h (by simp)
    | docRefJ n => rw [hm] at h; exact absurd h (by simp)
    | objV c props => rw [hm] at h; exact absurd h (by simp)
  · intro v hm
    simp only [validateReadOptions, readOptions_guard_unsat, Bool.false_eq_true,
      if_false, hm]
  · intro args last hlast hhead hplain hmask
    simp only [parseGetAllArguments, hhead, Bool.false_eq_true, if_false,
      hlast, hplain, if_pos]
    cases hd : validateDocRefList args.dropLast with
    | error e => simp [isError]
    | ok u =>
      have hro : validateReadOptions (some last) =
          Except.error (VErr.invalidArgument "read option: fieldMask is not an array.") := by
        simp only [validateReadOptions, readOptions_guard_unsat, Bool.false_eq_true,
          if_false, hmask]
      rw [hro]
      simp [isError]

/-- Witness for C10: `getAll(docRef, {})` — a trailing plain object with
no `fieldMask` — fails. -/
theorem readOptions_require_fieldMask_witness :
    isError (parseGetAllArguments [JSVal.docRefJ "d", JSVal.objV "Object" []]) = true :=
  readOptions_require_fieldMask.2.2 [JSVal.docRefJ "d", JSVal.objV "Object" []]
    (JSVal.objV "Object" []) rfl rfl rfl rfl

end Firestore

